import Mathlib

/-!
Verification development for the enterprise catalog indexing core.

The Python source under `src/enterprise_catalog` is shallowly embedded here.
Python JSON-like values are modelled by the inductive type `PyVal`; Python
code that can raise is modelled in the `Except PyErr` monad.  The functions
of `apps/catalog/algolia_utils.py` are translated one by one, keeping their
names (leading underscores dropped) and their statement order, including
evaluation order of effects.

The run-activity predicate `is_course_run_active` lives in
`apps/api/v1/utils.py`, which is an external collaborator of this core
(contract: `is_active(course_run) -> bool`); it is modelled as an explicit
Boolean parameter `isActive` threaded through the definitions that call it.

The celery task layer (`apps/api/tasks.py`) is not part of the sources; the
pieces of it that the claims need (execution semaphore, batched UUID
fan-out, index synchronizer cycle) are modelled from the specification and
from their in-repository tests, and are marked `Modelled from the spec:` in
their doc comments.
-/

/-- Python error kinds that the embedded code can raise. -/
inductive PyErr where
  | attributeError
  | typeError
deriving Repr, DecidableEq

/-- A Python JSON-like value: None, bool, int, str, list or dict.
Dicts are association lists; lookup takes the first binding. -/
inductive PyVal where
  | null
  | bool (b : Bool)
  | int (n : Int)
  | str (s : String)
  | list (xs : List PyVal)
  | dict (kvs : List (String × PyVal))

mutual
/-- Python equality `==` on values.  Mirrors CPython for the scalar types
(including `True == 1`); lists compare pointwise.  Dicts are compared
binding-by-binding in order, an approximation of the order-insensitive
Python dict equality that no proved claim relies on. -/
def pyEq : PyVal → PyVal → Bool
  | .null, .null => true
  | .bool a, .bool b => a == b
  | .bool a, .int n => (if a then (1 : Int) else 0) == n
  | .int n, .bool a => n == (if a then (1 : Int) else 0)
  | .int m, .int n => m == n
  | .str s, .str t => s == t
  | .list xs, .list ys => pyEqList xs ys
  | .dict xs, .dict ys => pyEqDict xs ys
  | _, _ => false

/-- Pointwise `pyEq` on lists. -/
def pyEqList : List PyVal → List PyVal → Bool
  | [], [] => true
  | x :: xs, y :: ys => pyEq x y && pyEqList xs ys
  | _, _ => false

/-- Pairwise `pyEq` on dict bindings. -/
def pyEqDict : List (String × PyVal) → List (String × PyVal) → Bool
  | [], [] => true
  | (k, x) :: xs, (l, y) :: ys => k == l && pyEq x y && pyEqDict xs ys
  | _, _ => false
end

/-- Python truthiness of a value. -/
def truthy : PyVal → Bool
  | .null => false
  | .bool b => b
  | .int n => n != 0
  | .str s => s != ""
  | .list xs => !xs.isEmpty
  | .dict kvs => !kvs.isEmpty

/-- First binding of a key in a dict body. -/
def dictLookup : List (String × PyVal) → String → Option PyVal
  | [], _ => none
  | (k', v) :: rest, k => if k' == k then some v else dictLookup rest k

/-- `v.get(k, d)`: dict lookup with a default for a missing key; any
non-dict receiver raises AttributeError. -/
def pyGetD (v : PyVal) (k : String) (d : PyVal) : Except PyErr PyVal :=
  match v with
  | .dict kvs =>
    match dictLookup kvs k with
    | some w => .ok w
    | none => .ok d
  | _ => .error .attributeError

/-- `v.get(k)`: dict lookup defaulting to None. -/
def pyGet (v : PyVal) (k : String) : Except PyErr PyVal :=
  pyGetD v k .null

/-- `x or d`: the value itself when truthy, else the default. -/
def pyOr (v d : PyVal) : PyVal :=
  if truthy v then v else d

/-- Iterating a Python value: lists yield elements, strings yield
characters, dicts yield keys; anything else raises TypeError. -/
def pyIter : PyVal → Except PyErr (List PyVal)
  | .list xs => .ok xs
  | .str s => .ok (s.toList.map (fun c => .str (String.mk [c])))
  | .dict kvs => .ok (kvs.map (fun p => .str p.1))
  | _ => .error .typeError

/-- `len(v)` for sized values; anything else raises TypeError. -/
def pyLen : PyVal → Except PyErr Nat
  | .list xs => .ok xs.length
  | .str s => .ok s.length
  | .dict kvs => .ok kvs.length
  | _ => .error .typeError

/-- Whether a value may be put in a Python set (lists and dicts are
unhashable). -/
def pyHashable : PyVal → Bool
  | .list _ => false
  | .dict _ => false
  | _ => true

/-- `s.add(v)` on a Python set, modelled as a `pyEq`-deduplicated list in
insertion order; unhashable elements raise TypeError. -/
def pySetAdd (acc : List PyVal) (v : PyVal) : Except PyErr (List PyVal) :=
  if pyHashable v then
    .ok (if acc.any (fun w => pyEq w v) then acc else acc ++ [v])
  else .error .typeError

/-- Adding a string to a set of strings, deduplicated in insertion order. -/
def setAddStr (acc : List String) (s : String) : List String :=
  if s ∈ acc then acc else acc ++ [s]

/-- An effectful filter, evaluating the predicate left to right and
propagating the first raised error, like a Python list comprehension. -/
def filterE (p : PyVal → Except PyErr Bool) : List PyVal → Except PyErr (List PyVal)
  | [] => .ok []
  | x :: xs => do
    let b ← p x
    let rest ← filterE p xs
    pure (if b then x :: rest else rest)

/-- A `ContentMetadata` row as the catalog functions see it: a content key
plus its raw `json_metadata` value. -/
structure ContentMetadata where
  content_key : String
  json_metadata : PyVal

/-- `_get_course_run_by_uuid` of algolia_utils.py: first course run whose
uuid equals the given one; the IndexError of `[0]` on no match is caught
and returns None, every other error propagates. -/
def get_course_run_by_uuid (course course_run_uuid : PyVal) :
    Except PyErr (Option PyVal) := do
  let crs ← pyGetD course "course_runs" (.list [])
  let runs ← pyIter crs
  let ms ← filterE (fun run => do
    let u ← pyGet run "uuid"
    pure (pyEq u course_run_uuid)) runs
  pure ms.head?

/-- `_should_index_course` of algolia_utils.py, with the external
run-activity predicate as the parameter `isActive`. -/
def should_index_course (isActive : PyVal → Bool) (cm : ContentMetadata) :
    Except PyErr Bool := do
  let cjm := cm.json_metadata
  let adv_uuid ← pyGet cjm "advertised_course_run_uuid"
  let adv ← get_course_run_by_uuid cjm adv_uuid
  match adv with
  | none => pure false
  | some run =>
    if !isActive run then pure false
    else do
      let owners := pyOr (← pyGet cjm "owners") (.list [])
      let hidden ← pyGet run "hidden"
      if truthy hidden then pure false
      else do
        let n ← pyLen owners
        pure (decide (0 < n))

/-- The loop body of `partition_course_keys_for_indexing`, threading the
two key sets. -/
def partitionGo (isActive : PyVal → Bool) :
    List ContentMetadata → List String → List String →
    Except PyErr (List String × List String)
  | [], ix, nix => .ok (ix, nix)
  | cm :: rest, ix, nix => do
    let b ← should_index_course isActive cm
    if b then partitionGo isActive rest (setAddStr ix cm.content_key) nix
    else partitionGo isActive rest ix (setAddStr nix cm.content_key)

/-- `partition_course_keys_for_indexing` of algolia_utils.py: split course
records into indexable and non-indexable content keys (two Python sets,
modelled as insertion-ordered deduplicated lists). -/
def partition_course_keys_for_indexing (isActive : PyVal → Bool)
    (courses : List ContentMetadata) : Except PyErr (List String × List String) :=
  partitionGo isActive courses [] []

/-- `get_algolia_object_id` of algolia_utils.py, at its documented type
(`uuid (str)`): `course-{uuid}` for a truthy uuid, else None. -/
def get_algolia_object_id (uuid : Option String) : Option String :=
  match uuid with
  | some u => if u != "" then some ("course-" ++ u) else none
  | none => none

/-- `get_course_language` of algolia_utils.py: language facet name of the
advertised run, None when the run is missing or falsy. -/
def get_course_language (course : PyVal) : Except PyErr PyVal := do
  let adv_uuid ← pyGet course "advertised_course_run_uuid"
  let adv ← get_course_run_by_uuid course adv_uuid
  match adv with
  | none => pure .null
  | some run =>
    if !truthy run then pure .null
    else pyGet run "content_language_search_facet_name"

/-- `str.lower()`, modelled on the ASCII range (the availability codes the
mapping recognises are ASCII). -/
def strToLower (s : String) : String :=
  String.mk (s.toList.map (fun c =>
    if 65 ≤ c.toNat && c.toNat ≤ 90 then Char.ofNat (c.toNat + 32) else c))

/-- The fixed availability mapping of `get_course_availability`:
`COURSE_AVAILABILITY_MESSAGES.get(code, DEFAULT_COURSE_AVAILABILITY)`
applied to the lowercased raw code. -/
def availabilityMessage (code : String) : String :=
  if strToLower code = "current" then "Available Now"
  else if strToLower code = "upcoming" then "Upcoming"
  else "Archived"

/-- The loop of `get_course_availability` over the active runs, building
the set of availability labels. -/
def availabilityGo : List PyVal → List String → Except PyErr (List String)
  | [], acc => .ok acc
  | run :: rest, acc => do
    let ra := pyOr (← pyGet run "availability") (.str "")
    match ra with
    | .str s => availabilityGo rest (setAddStr acc (availabilityMessage s))
    | _ => .error .attributeError

/-- `get_course_availability` of algolia_utils.py: deduplicated human
labels for the availability codes of the active course runs. -/
def get_course_availability (isActive : PyVal → Bool) (course : PyVal) :
    Except PyErr (List String) := do
  let crs := pyOr (← pyGet course "course_runs") (.list [])
  let runs ← pyIter crs
  let active_course_runs := runs.filter isActive
  availabilityGo active_course_runs []

/-- The loop of `get_course_partners` over the owners. -/
def partnersGo : List PyVal → List PyVal → Except PyErr (List PyVal)
  | [], acc => .ok acc
  | owner :: rest, acc => do
    let partner_name ← pyGet owner "name"
    if truthy partner_name then do
      let logo ← pyGet owner "logo_image_url"
      partnersGo rest (acc ++ [.dict [("name", partner_name), ("logo_image_url", logo)]])
    else partnersGo rest acc

/-- `get_course_partners` of algolia_utils.py: name and logo of each owner
that has a truthy name, in order. -/
def get_course_partners (course : PyVal) : Except PyErr (List PyVal) := do
  let owners := pyOr (← pyGet course "owners") (.list [])
  let items ← pyIter owners
  partnersGo items []

/-- The set comprehension of `_get_course_program_field`. -/
def programFieldGo (field : String) : List PyVal → List PyVal → Except PyErr (List PyVal)
  | [], acc => .ok acc
  | program :: rest, acc => do
    let value ← pyGet program field
    if truthy value then do
      let acc' ← pySetAdd acc value
      programFieldGo field rest acc'
    else programFieldGo field rest acc

/-- `_get_course_program_field` of algolia_utils.py: the deduplicated
truthy values of one field across the programs of a course. -/
def get_course_program_field (course : PyVal) (field : String) :
    Except PyErr (List PyVal) := do
  let programs := pyOr (← pyGet course "programs") (.list [])
  let items ← pyIter programs
  programFieldGo field items []

/-- `get_course_program_types` of algolia_utils.py. -/
def get_course_program_types (course : PyVal) : Except PyErr (List PyVal) :=
  get_course_program_field course "type"

/-- `get_course_program_titles` of algolia_utils.py. -/
def get_course_program_titles (course : PyVal) : Except PyErr (List PyVal) :=
  get_course_program_field course "title"

/-- The loop of `get_course_subjects`: a plain string is added as is; any
other value is asked for its `name` via `.get`, which raises
AttributeError on non-dicts, and a truthy name is added. -/
def subjectsGo : List PyVal → List PyVal → Except PyErr (List PyVal)
  | [], acc => .ok acc
  | subject :: rest, acc =>
    match subject with
    | .str s => do
      let acc' ← pySetAdd acc (.str s)
      subjectsGo rest acc'
    | _ => do
      let subject_name ← pyGet subject "name"
      if truthy subject_name then do
        let acc' ← pySetAdd acc subject_name
        subjectsGo rest acc'
      else subjectsGo rest acc

/-- `get_course_subjects` of algolia_utils.py: deduplicated subject names,
accepting both plain strings and `name` mappings. -/
def get_course_subjects (course : PyVal) : Except PyErr (List PyVal) := do
  let subjects := pyOr (← pyGet course "subjects") (.list [])
  let items ← pyIter subjects
  subjectsGo items []

/-- `get_course_card_image_url` of algolia_utils.py. -/
def get_course_card_image_url (course : PyVal) : Except PyErr PyVal :=
  pyGet course "image_url"

/-- The deduplication loop of `get_course_skill_names` (`list(set(...))`). -/
def skillNamesGo : List PyVal → List PyVal → Except PyErr (List PyVal)
  | [], acc => .ok acc
  | x :: rest, acc => do
    let acc' ← pySetAdd acc x
    skillNamesGo rest acc'

/-- `get_course_skill_names` of algolia_utils.py. -/
def get_course_skill_names (course : PyVal) : Except PyErr (List PyVal) := do
  let skill_names := pyOr (← pyGet course "skill_names") (.list [])
  let items ← pyIter skill_names
  skillNamesGo items []

/-- `get_course_skills` of algolia_utils.py: `list(...)` of the skills. -/
def get_course_skills (course : PyVal) : Except PyErr (List PyVal) := do
  let skills := pyOr (← pyGet course "skills") (.list [])
  pyIter skills

/-- `get_advertised_course_run` of algolia_utils.py: the key, pacing type,
start and end of the advertised run, or None when it is absent. -/
def get_advertised_course_run (course : PyVal) : Except PyErr PyVal := do
  let adv_uuid ← pyGet course "advertised_course_run_uuid"
  let full ← get_course_run_by_uuid course adv_uuid
  match full with
  | none => pure .null
  | some fr => do
    let k ← pyGet fr "key"
    let p ← pyGet fr "pacing_type"
    let s ← pyGet fr "start"
    let e ← pyGet fr "end"
    pure (.dict [("key", k), ("pacing_type", p), ("start", s), ("end", e)])

/-! ## Well-formed course records

The data model of the specification (CourseRecord) restricted to the fields
the indexability and availability rules read.  `embedCourseJson` renders a
record as the `PyVal` dict the source functions receive; a `course_runs`
value of `none` renders the key absent. -/
/-- A course run of the data model. -/
structure WfRun where
  uuid : Option String
  hidden : Bool
  status : String
  is_enrollable : Bool
  is_marketable : Bool
  availability : Option String
deriving Repr, DecidableEq

/-- An owner of the data model. -/
structure WfOwner where
  name : Option String
  logo_image_url : Option String
deriving Repr, DecidableEq

/-- A course record of the data model. -/
structure WfCourse where
  content_key : String
  uuid : String
  advertised_course_run_uuid : Option String
  course_runs : Option (List WfRun)
  owners : List WfOwner
deriving Repr, DecidableEq

/-- An optional string as a `PyVal` (None when absent). -/
def embedOptStr : Option String → PyVal
  | some s => .str s
  | none => .null

/-- A course run as the dict the source reads. -/
def embedRun (r : WfRun) : PyVal :=
  .dict [("uuid", embedOptStr r.uuid), ("hidden", .bool r.hidden),
         ("status", .str r.status), ("is_enrollable", .bool r.is_enrollable),
         ("is_marketable", .bool r.is_marketable),
         ("availability", embedOptStr r.availability)]

/-- An owner as the dict the source reads. -/
def embedOwner (o : WfOwner) : PyVal :=
  .dict [("name", embedOptStr o.name), ("logo_image_url", embedOptStr o.logo_image_url)]

/-- The `json_metadata` dict of a well-formed course record. -/
def embedCourseJson (c : WfCourse) : PyVal :=
  .dict ([("uuid", .str c.uuid),
          ("advertised_course_run_uuid", embedOptStr c.advertised_course_run_uuid)]
    ++ (match c.course_runs with
        | none => []
        | some rs => [("course_runs", .list (rs.map embedRun))])
    ++ [("owners", .list (c.owners.map embedOwner))])

/-- The `ContentMetadata` row of a well-formed course record. -/
def embedCM (c : WfCourse) : ContentMetadata :=
  ⟨c.content_key, embedCourseJson c⟩

/-- The course runs of a record, empty when the field is absent. -/
def runsOf (c : WfCourse) : List WfRun :=
  c.course_runs.getD []

/-- Whether a run is the advertised one: its uuid equals the advertised
course run uuid of the record (None equals None). -/
def matchesAdvertised (c : WfCourse) (r : WfRun) : Bool :=
  r.uuid == c.advertised_course_run_uuid

/-- The indexability predicate in the words of the specification: some run
is the advertised one, it is active, it is not hidden, and the owners list
is non-empty. -/
def should_index_spec (isActive : PyVal → Bool) (c : WfCourse) : Bool :=
  ((runsOf c).any (fun r =>
      matchesAdvertised c r && isActive (embedRun r) && !r.hidden))
    && !c.owners.isEmpty

/-- The availability projection in the words of the specification: the
label of each active run, deduplicated, where a missing code labels as an
empty code does. -/
def get_course_availability_spec (isActive : PyVal → Bool) (c : WfCourse) : List String :=
  ((runsOf c).filter (fun r => isActive (embedRun r))).foldl
    (fun acc r => setAddStr acc (availabilityMessage (r.availability.getD ""))) []

/-! ## A one-level heap for the frame property of `_algolia_object_from_course`

The source deep-copies its input dict and mutates only the copy.  Top-level
dict objects are modelled as addresses into a heap; nested values are
immutable `PyVal`s, which is faithful here because the function only ever
assigns top-level keys of the copy.  `copy.deepcopy` becomes allocation of
a fresh address carrying the same contents. -/
/-- A store of live top-level dict objects. -/
abbrev Heap := List (Nat × List (String × PyVal))

/-- The contents of the dict object at an address. -/
def heapLookup : Heap → Nat → Option (List (String × PyVal))
  | [], _ => none
  | p :: rest, a => if p.1 == a then some p.2 else heapLookup rest a

/-- Overwrite the contents of the dict object at an address. -/
def heapSet (h : Heap) (a : Nat) (kvs : List (String × PyVal)) : Heap :=
  h.map (fun p => if p.1 = a then (a, kvs) else p)

/-- An address strictly greater than every allocated one. -/
def freshAddr (h : Heap) : Nat :=
  (h.map (fun p => p.1)).foldl Nat.max 0 + 1

/-- `d[k] = v` on a dict body: overwrite the binding in place when the key
exists, else append it. -/
def dictSet (kvs : List (String × PyVal)) (k : String) (v : PyVal) :
    List (String × PyVal) :=
  if kvs.any (fun p => p.1 == k) then
    kvs.map (fun p => if p.1 == k then (k, v) else p)
  else kvs ++ [(k, v)]

/-- `d.update(upd)`: set every binding of the update dict in order. -/
def dictUpdate (kvs upd : List (String × PyVal)) : List (String × PyVal) :=
  upd.foldl (fun acc p => dictSet acc p.1 p.2) kvs

/-- The dict literal passed to `searchable_course.update(...)` in
`_algolia_object_from_course`: the ten derived fields, evaluated on the
copied course in source order, with the first raised error propagating. -/
def derivedFields (isActive : PyVal → Bool) (scv : PyVal) :
    Except PyErr (List (String × PyVal)) := do
  let language ← get_course_language scv
  let availability ← get_course_availability isActive scv
  let partners ← get_course_partners scv
  let programs ← get_course_program_types scv
  let program_titles ← get_course_program_titles scv
  let subjects ← get_course_subjects scv
  let card_image_url ← get_course_card_image_url scv
  let advertised_course_run ← get_advertised_course_run scv
  let skill_names ← get_course_skill_names scv
  let skills ← get_course_skills scv
  pure [("language", language),
        ("availability", PyVal.list (availability.map PyVal.str)),
        ("partners", PyVal.list partners),
        ("programs", PyVal.list programs),
        ("program_titles", PyVal.list program_titles),
        ("subjects", PyVal.list subjects),
        ("card_image_url", card_image_url),
        ("advertised_course_run", advertised_course_run),
        ("skill_names", PyVal.list skill_names),
        ("skills", PyVal.list skills)]

/-- `_algolia_object_from_course` of algolia_utils.py over the heap: deep
copy the course dict, evaluate the ten derived fields on the copy in source
order, update the copy, and project the allow-listed fields, skipping
absent and None values.  The result value is paired with the final heap;
a raised error from a derived field still reports the heap.  The dangling
address case cannot arise from Python and reports TypeError. -/
def algolia_object_from_course (isActive : PyVal → Bool) (fields : List String)
    (h : Heap) (course : Nat) :
    Except PyErr (List (String × PyVal)) × Heap :=
  match heapLookup h course with
  | none => (.error .typeError, h)
  | some contents =>
    let sc := freshAddr h
    let h1 := h ++ [(sc, contents)]
    match derivedFields isActive (PyVal.dict contents) with
    | .error e => (.error e, h1)
    | .ok derived =>
      let newContents := dictUpdate contents derived
      let h2 := heapSet h1 sc newContents
      let obj := fields.foldl (fun acc field =>
        match dictLookup newContents field with
        | some .null => acc
        | some v => acc ++ [(field, v)]
        | none => acc) []
      (.ok obj, h2)

/-! ## The execution semaphore (modelled from the spec)

`apps/api/tasks.py` is not among the sources; only its tests are.  The
records of the Task Result Store and the semaphore are modelled from
section 4.1 of the specification and from `TestTaskResultFunctions`:
positional and keyword arguments appear in their serialized string form,
and the recency window is a number of seconds ending now (default one
hour). -/
/-- A job status.  The unready set of the specification is
{PENDING, STARTED, RETRY}; the remaining states are terminal. -/
inductive TaskStatus where
  | PENDING
  | STARTED
  | RETRY
  | SUCCESS
  | FAILURE
  | REVOKED
deriving Repr, DecidableEq

/-- The unready statuses: the job has not reached a terminal outcome. -/
def UNREADY_STATES : List TaskStatus := [.PENDING, .STARTED, .RETRY]

/-- A JobRecord of the Task Result Store. -/
structure TaskResultRec where
  task_name : String
  task_args : String
  task_kwargs : String
  status : TaskStatus
  date_created : Nat
  task_id : String
deriving Repr, DecidableEq

/-- The execution identity of the pending invocation: job name, own
execution id, and serialized args and kwargs. -/
structure BoundTask where
  name : String
  request_id : String
  request_args : String
  request_kwargs : String
deriving Repr, DecidableEq

/-- The error the semaphore raises, carrying the job name and args. -/
structure TaskRecentlyRunError where
  task_name : String
  task_args : String
  task_kwargs : String
deriving Repr, DecidableEq

/-- Modelled from the spec: `unready_tasks` of tasks.py — the records of
the store with this job name, an unready status, and a creation time
within the window of `delta` seconds ending `now`.  A separate helper
with its own tests; the blocking check of the semaphore does not go
through it (see `task_recently_run`). -/
def unready_tasks (store : List TaskResultRec) (now delta : Nat)
    (task_name : String) : List TaskResultRec :=
  store.filter (fun r =>
    r.task_name == task_name && UNREADY_STATES.contains r.status &&
      decide (now - delta ≤ r.date_created))

/-- Modelled from the spec and the in-repository tests:
`task_recently_run` of tasks.py — whether a record of this job name,
carrying exactly this invocation's serialized args and kwargs and created
within the window, exists besides this invocation itself.  The query has
no status condition: in test_semaphore_raises_recent_run_error_for_same_args
the one stored record has status SUCCESS and still blocks, so the program
filters the blocking query only on name, args, kwargs and creation time
and excludes the own execution id. -/
def task_recently_run (store : List TaskResultRec) (now delta : Nat)
    (t : BoundTask) : Bool :=
  !((store.filter (fun r =>
      r.task_name == t.name && r.task_args == t.request_args &&
        r.task_kwargs == t.request_kwargs &&
        decide (now - delta ≤ r.date_created))).filter
      (fun r => r.task_id != t.request_id)).isEmpty

/-- Modelled from the spec: the `expiring_task_semaphore` wrapper of
tasks.py — raise `TaskRecentlyRunError` when an equivalent recent
execution exists, otherwise run the work and return its result
unchanged. -/
def expiring_task_semaphore {α : Type} (store : List TaskResultRec)
    (now delta : Nat) (t : BoundTask) (work : α) :
    Except TaskRecentlyRunError α :=
  if task_recently_run store now delta t then
    .error ⟨t.name, t.request_args, t.request_kwargs⟩
  else .ok work

/-! ## The batched UUID fan-out and the synchronizer cycle (modelled from the spec)

Strings are ordered by code points, as Python `sorted` orders them. -/
/-- Code-point lexicographic order on character lists. -/
def charsLe : List Char → List Char → Bool
  | [], _ => true
  | _ :: _, [] => false
  | c :: cs, d :: ds =>
    if c.toNat < d.toNat then true
    else if d.toNat < c.toNat then false
    else charsLe cs ds

/-- Code-point lexicographic order on strings. -/
def strLe (a b : String) : Bool := charsLe a.toList b.toList

/-- Insert a string into a sorted list. -/
def strInsert (x : String) : List String → List String
  | [] => [x]
  | y :: ys => if strLe x y then x :: y :: ys else y :: strInsert x ys

/-- `sorted` on a list of strings (insertion sort). -/
def sortStrings : List String → List String
  | [] => []
  | x :: xs => strInsert x (sortStrings xs)

/-- Chunking with explicit fuel; one chunk is emitted per fuel step, so
fuel equal to the list length always suffices. -/
def chunkedGo {α : Type} (k : Nat) : Nat → List α → List (List α)
  | _, [] => []
  | 0, rest => [rest]
  | fuel + 1, x :: xs => (x :: xs.take k) :: chunkedGo k fuel (xs.drop k)

/-- Consecutive chunks of at most `max b 1` elements (the batch size `b`
is positive in every use; `ALGOLIA_UUID_BATCH_SIZE` is 100). -/
def chunked {α : Type} (b : Nat) (xs : List α) : List (List α) :=
  chunkedGo (Nat.max b 1 - 1) xs.length xs

/-- `ALGOLIA_UUID_BATCH_SIZE` of algolia_utils.py. -/
def ALGOLIA_UUID_BATCH_SIZE : Nat := 100

/-- One search-index object of the batched fan-out: the object identifier,
the course content key, and exactly one association field with the UUIDs
of one batch. -/
structure IndexObject where
  objectID : String
  key : String
  assocField : String
  assocUuids : List String
deriving Repr, DecidableEq

/-- Modelled from the spec: the batched fan-out of tasks.py for one
association kind — sort the UUIDs, chunk them, and emit one object per
chunk whose identifier appends the kind, the literal `uuids` and the batch
index to the object-id base. -/
def batched_uuid_objects (objIdBase content_key kind fieldName : String)
    (uuids : List String) (b : Nat) : List IndexObject :=
  (chunked b (sortStrings uuids)).enum.map (fun p =>
    { objectID := objIdBase ++ "-" ++ kind ++ "-uuids-" ++ toString p.1
      key := content_key
      assocField := fieldName
      assocUuids := p.2 })

/-- The three association UUID sets of a course (AssociationSet of the
data model). -/
structure AssocSet where
  catalog_uuids : List String
  customer_uuids : List String
  catalog_query_uuids : List String
deriving Repr, DecidableEq

/-- Modelled from the spec: the full fan-out of one course in tasks.py.
The object-id base is `course-` followed by the top-level uuid of the
course metadata, the value `get_algolia_object_id` receives per its
contract and per `test_index_algolia_with_all_uuids`. -/
def course_fanout (course_uuid content_key : String) (assoc : AssocSet)
    (b : Nat) : List IndexObject :=
  batched_uuid_objects ("course-" ++ course_uuid) content_key "catalog"
      "enterprise_catalog_uuids" assoc.catalog_uuids b
    ++ batched_uuid_objects ("course-" ++ course_uuid) content_key "customer"
      "enterprise_customer_uuids" assoc.customer_uuids b
    ++ batched_uuid_objects ("course-" ++ course_uuid) content_key "catalog-query"
      "enterprise_catalog_query_uuids" assoc.catalog_query_uuids b

/-- The observable outcome of one synchronizer cycle: the aggregate passed
to the single replace-all call, the sequence of cache membership checks,
and the cache contents afterwards. -/
structure CycleResult where
  payload : List IndexObject
  cacheChecks : List String
  cacheAfter : List String
deriving Repr, DecidableEq

/-- One indexable course key inside the cycle: record the cache check,
then either skip (hit) or append the projected objects and mark the key
(miss). -/
def cycleStep (objectsFor : String → List IndexObject) (st : CycleResult)
    (k : String) : CycleResult :=
  let st' : CycleResult :=
    { st with cacheChecks := st.cacheChecks ++ [k] }
  if st'.cacheAfter.contains k then st'
  else { st' with payload := st'.payload ++ objectsFor k,
                  cacheAfter := st'.cacheAfter ++ [k] }

/-- Modelled from the spec: one Index Synchronizer cycle of section 4.4 —
partition the candidate courses, then walk the indexable keys checking the
recently-indexed cache, projecting and marking on a miss, and hand the
aggregate to the one replace-all call.  Projection and association lookup
are the collaborator `objectsFor`; staying within the cache TTL between
cycles is modelled by passing the cache state on unchanged. -/
def index_synchronizer_cycle (isActive : PyVal → Bool)
    (courses : List ContentMetadata) (objectsFor : String → List IndexObject)
    (cache : List String) : Except PyErr CycleResult := do
  let p ← partition_course_keys_for_indexing isActive courses
  pure (p.1.foldl (cycleStep objectsFor) ⟨[], [], cache⟩)

/-- A concrete indexable course record used by witnesses. -/
def c2Course : WfCourse :=
  ⟨"fakeX", "cu", some "r1",
    some [⟨some "r1", false, "published", true, true, some "Current"⟩],
    [⟨some "edX", none⟩]⟩

/-- A course record that is indexable under a constant-true activity
predicate. -/
def c3CourseA : ContentMetadata :=
  embedCM ⟨"dupX", "cu", some "r1",
    some [⟨some "r1", false, "published", true, true, none⟩],
    [⟨some "edX", none⟩]⟩

/-- A second record with the same content key and empty metadata, which is
classified non-indexable. -/
def c3CourseB : ContentMetadata :=
  ⟨"dupX", .dict []⟩

/-- A subject name together with its representation: `true` renders the
plain string, `false` renders the `name` mapping. -/
def embedSubjectRep (p : String × Bool) : PyVal :=
  match p.2 with
  | true => .str p.1
  | false => .dict [("name", .str p.1)]

/-- A course whose only field is the given subjects list. -/
def subjectsCourse (items : List (String × Bool)) : PyVal :=
  .dict [("subjects", .list (items.map embedSubjectRep))]

/-- A subject value of one of the shapes the source recognises: a plain
string, or a mapping with or without a name. -/
inductive WfSubject where
  | plain (s : String)
  | mapping (name : Option String)
deriving Repr, DecidableEq

/-- A well-formed subject as the `PyVal` the source reads. -/
def embedSubject : WfSubject → PyVal
  | .plain s => .str s
  | .mapping (some n) => .dict [("name", .str n)]
  | .mapping none => .dict []

/-- A course whose only field is the given well-formed subjects list. -/
def wfSubjectsCourse (subs : List WfSubject) : PyVal :=
  .dict [("subjects", .list (subs.map embedSubject))]

/-- A course record whose course_runs field is absent entirely. -/
def c7NoRuns : WfCourse := ⟨"noRunsX", "cu", none, none, []⟩

/-- A course record whose course_runs field is the Python value None. -/
def c7NullRuns : ContentMetadata := ⟨"badX", .dict [("course_runs", .null)]⟩

/-- A well-formed indexable record processed after the malformed one. -/
def c7Good : ContentMetadata :=
  embedCM ⟨"goodX", "cu", some "r1",
    some [⟨some "r1", false, "published", true, true, none⟩],
    [⟨some "edX", none⟩]⟩

/-- A stored job record equivalent to the witness invocation. -/
def c1Record : TaskResultRec :=
  ⟨"mock_task", "[123, 77]", "{}", .PENDING, 100, "other-id"⟩

/-- The witness invocation identity. -/
def c1Task : BoundTask := ⟨"mock_task", "my-id", "[123, 77]", "{}"⟩

/-- A record with the terminal status SUCCESS that otherwise matches the
witness invocation, mirroring the stored record of
test_semaphore_raises_recent_run_error_for_same_args. -/
def c1SuccessRecord : TaskResultRec :=
  ⟨"mock_task", "[123, 77]", "{}", .SUCCESS, 100, "other-id"⟩

/-- A course whose own uuid (cu) differs from its advertised run uuid
(ru). -/
def c4Course : WfCourse :=
  ⟨"fakeX", "cu", some "ru",
    some [⟨some "ru", false, "published", true, true, none⟩],
    [⟨some "edX", none⟩]⟩

/-- A concrete indexable course record for the C5 witness. -/
def c5Course : ContentMetadata :=
  embedCM ⟨"fakeX", "cu", some "r1",
    some [⟨some "r1", false, "published", true, true, none⟩],
    [⟨some "edX", none⟩]⟩

/-! ## Basic lemmas -/
theorem mem_setAddStr (acc : List String) (s k : String) :
    k ∈ setAddStr acc s ↔ (k ∈ acc ∨ k = s) := by
  by_cases h : s ∈ acc
  · simp only [setAddStr, if_pos h]
    constructor
    · exact Or.inl
    · rintro (hk | rfl)
      · exact hk
      · exact h
  · simp [setAddStr, if_neg h]

theorem except_bind_ok {ε α β : Type} (a : α) (f : α → Except ε β) :
    (Except.ok a >>= f) = f a := rfl

theorem except_pure_eq_ok {ε α : Type} (a : α) :
    (pure a : Except ε α) = Except.ok a := rfl

theorem except_bind_error {ε α β : Type} (e : ε) (f : α → Except ε β) :
    (Except.error e >>= f : Except ε β) = Except.error e := rfl

theorem nodup_setAddStr (acc : List String) (s : String) (h : acc.Nodup) :
    (setAddStr acc s).Nodup := by
  by_cases hs : s ∈ acc
  · simpa [setAddStr, if_pos hs] using h
  · simp [setAddStr, if_neg hs, List.nodup_append, h, hs]

theorem pyEq_embedOptStr (a b : Option String) :
    pyEq (embedOptStr a) (embedOptStr b) = (a == b) := by
  cases a <;> cases b <;> simp [embedOptStr, pyEq]

theorem filterE_map_ok {β : Type} (f : β → PyVal) (p : PyVal → Except PyErr Bool)
    (q : β → Bool) (xs : List β) (h : ∀ x ∈ xs, p (f x) = .ok (q x)) :
    filterE p (xs.map f) = .ok ((xs.filter q).map f) := by
  induction xs with
  | nil => simp [filterE]
  | cons x rest ih =>
    have hx := h x (by simp)
    have hrest := ih (fun y hy => h y (by simp [hy]))
    simp only [List.map_cons, filterE, hx, hrest, except_bind_ok, List.filter_cons]
    cases hq : q x <;> simp [hq, except_bind_ok, except_pure_eq_ok]

theorem pyGet_embedRun_uuid (r : WfRun) :
    pyGet (embedRun r) "uuid" = .ok (embedOptStr r.uuid) := by
  simp [pyGet, pyGetD, embedRun, dictLookup]

theorem pyGet_embedRun_hidden (r : WfRun) :
    pyGet (embedRun r) "hidden" = .ok (.bool r.hidden) := by
  simp [pyGet, pyGetD, embedRun, dictLookup]

theorem pyGet_embedRun_availability (r : WfRun) :
    pyGet (embedRun r) "availability" = .ok (embedOptStr r.availability) := by
  simp [pyGet, pyGetD, embedRun, dictLookup]

theorem pyGet_embed_adv (c : WfCourse) :
    pyGet (embedCourseJson c) "advertised_course_run_uuid" =
      .ok (embedOptStr c.advertised_course_run_uuid) := by
  cases h : c.course_runs <;> simp [embedCourseJson, h, pyGet, pyGetD, dictLookup]

theorem pyGetD_embed_course_runs (c : WfCourse) :
    pyGetD (embedCourseJson c) "course_runs" (.list []) =
      .ok (.list ((runsOf c).map embedRun)) := by
  cases h : c.course_runs <;> simp [embedCourseJson, h, pyGetD, dictLookup, runsOf]

theorem pyGet_embed_owners (c : WfCourse) :
    pyGet (embedCourseJson c) "owners" = .ok (.list (c.owners.map embedOwner)) := by
  cases h : c.course_runs <;> simp [embedCourseJson, h, pyGet, pyGetD, dictLookup]

theorem get_course_run_by_uuid_embed (c : WfCourse) :
    get_course_run_by_uuid (embedCourseJson c)
        (embedOptStr c.advertised_course_run_uuid) =
      .ok (((runsOf c).find? (matchesAdvertised c)).map embedRun) := by
  have hfil := filterE_map_ok embedRun
    (fun run => (fun a => pyEq a (embedOptStr c.advertised_course_run_uuid)) <$>
      pyGet run "uuid")
    (matchesAdvertised c) (runsOf c)
    (by
      intro r _
      simp [pyGet_embedRun_uuid r, pyEq_embedOptStr, matchesAdvertised,
        Functor.map, Except.map])
  simp [get_course_run_by_uuid, pyGetD_embed_course_runs, pyIter, except_bind_ok,
    hfil, List.head?_map]

theorem should_index_embed (isActive : PyVal → Bool) (c : WfCourse) :
    should_index_course isActive (embedCM c) =
      .ok (match (runsOf c).find? (matchesAdvertised c) with
           | none => false
           | some r₀ => isActive (embedRun r₀) && !r₀.hidden && !c.owners.isEmpty) := by
  cases hf : (runsOf c).find? (matchesAdvertised c) with
  | none =>
    simp [should_index_course, embedCM, pyGet_embed_adv, except_bind_ok,
      get_course_run_by_uuid_embed, hf, except_pure_eq_ok]
  | some r₀ =>
    cases hact : isActive (embedRun r₀) with
    | false =>
      simp [should_index_course, embedCM, pyGet_embed_adv, except_bind_ok,
        get_course_run_by_uuid_embed, hf, hact, except_pure_eq_ok]
    | true =>
      have hlen : ∀ l : List WfOwner,
          pyLen (pyOr (.list (l.map embedOwner)) (.list [])) = .ok l.length := by
        intro l
        cases l <;> simp [pyOr, truthy, pyLen]
      cases hhid : r₀.hidden with
      | true =>
        simp [should_index_course, embedCM, pyGet_embed_adv, except_bind_ok,
          get_course_run_by_uuid_embed, hf, hact, hhid, pyGet_embed_owners,
          pyGet_embedRun_hidden, truthy, except_pure_eq_ok]
      | false =>
        simp only [should_index_course, embedCM, pyGet_embed_adv, except_bind_ok,
          get_course_run_by_uuid_embed, hf, hact, hhid, pyGet_embed_owners,
          pyGet_embedRun_hidden, truthy, hlen, Option.map_some, Bool.not_true,
          Bool.not_false, except_pure_eq_ok]
        cases howners : c.owners <;>
          simp [howners, hact, hhid, pyGet_embedRun_hidden, truthy,
            except_bind_ok, except_pure_eq_ok]

theorem eq_of_countP_le_one {α : Type} {l : List α} {p : α → Bool}
    (h : l.countP p ≤ 1) {a b : α} (ha : a ∈ l) (hpa : p a = true)
    (hb : b ∈ l) (hpb : p b = true) : a = b := by
  have ha' : a ∈ l.filter p := List.mem_filter.2 ⟨ha, hpa⟩
  have hb' : b ∈ l.filter p := List.mem_filter.2 ⟨hb, hpb⟩
  have hlen : (l.filter p).length ≤ 1 := by
    simpa [List.countP_eq_length_filter] using h
  match hfl : l.filter p, hlen with
  | [], _ => simp [hfl] at ha'
  | [x], _ =>
    rw [hfl] at ha' hb'
    simp at ha' hb'
    rw [ha', hb']
  | x :: y :: rest, hlen => simp [hfl] at hlen

theorem should_index_spec_eq_of_find?_none (isActive : PyVal → Bool) (c : WfCourse)
    (hf : (runsOf c).find? (matchesAdvertised c) = none) :
    should_index_spec isActive c = false := by
  have hno := List.find?_eq_none.1 hf
  unfold should_index_spec
  have hany : (runsOf c).any (fun r =>
      matchesAdvertised c r && isActive (embedRun r) && !r.hidden) = false := by
    rw [List.any_eq_false]
    intro r hr
    simp [hno r hr]
  rw [hany]
  simp

theorem should_index_spec_eq_of_find?_some (isActive : PyVal → Bool) (c : WfCourse)
    (huniq : (runsOf c).countP (matchesAdvertised c) ≤ 1) {r₀ : WfRun}
    (hf : (runsOf c).find? (matchesAdvertised c) = some r₀) :
    should_index_spec isActive c =
      (isActive (embedRun r₀) && !r₀.hidden && !c.owners.isEmpty) := by
  have hmem := List.mem_of_find?_eq_some hf
  have hp₀ := List.find?_some hf
  unfold should_index_spec
  cases hcase : (isActive (embedRun r₀) && !r₀.hidden) with
  | true =>
    have hany : (runsOf c).any (fun r =>
        matchesAdvertised c r && isActive (embedRun r) && !r.hidden) = true := by
      rw [List.any_eq_true]
      refine ⟨r₀, hmem, ?_⟩
      simp only [Bool.and_eq_true] at hcase ⊢
      exact ⟨⟨hp₀, hcase.1⟩, hcase.2⟩
    simp [hany, hcase]
  | false =>
    have hany : (runsOf c).any (fun r =>
        matchesAdvertised c r && isActive (embedRun r) && !r.hidden) = false := by
      rw [List.any_eq_false]
      intro r hr
      by_cases hm : matchesAdvertised c r = true
      · have hr₀ : r = r₀ := eq_of_countP_le_one huniq hr hm hmem hp₀
        subst hr₀
        simp only [Bool.and_eq_false_iff] at hcase
        rcases hcase with h | h <;> simp [h]
      · simp [hm]
    simp [hany, hcase]

/-- C2: for every well-formed course record satisfying the data-model
invariant that at most one course run matches the advertised uuid,
`_should_index_course` succeeds, and returns true exactly when all four
conditions hold: some run carries the advertised uuid, that run is active
per the run-activity predicate, its hidden flag is not true, and the
owners list is non-empty.  The equation to `should_index_spec` (the
conjunction of the four conditions) makes every single-condition flip
return false. -/
theorem should_index_course_truth_table (isActive : PyVal → Bool) (c : WfCourse)
    (huniq : (runsOf c).countP (matchesAdvertised c) ≤ 1) :
    should_index_course isActive (embedCM c) = .ok (should_index_spec isActive c) ∧
    (should_index_course isActive (embedCM c) = .ok true ↔
      ∃ r ∈ runsOf c, matchesAdvertised c r = true ∧ isActive (embedRun r) = true ∧
        r.hidden = false ∧ c.owners ≠ []) := by
  have heq : should_index_course isActive (embedCM c) =
      .ok (should_index_spec isActive c) := by
    rw [should_index_embed]
    cases hf : (runsOf c).find? (matchesAdvertised c) with
    | none => rw [should_index_spec_eq_of_find?_none isActive c hf]
    | some r₀ => rw [should_index_spec_eq_of_find?_some isActive c huniq hf]
  refine ⟨heq, ?_⟩
  rw [heq]
  simp only [Except.ok.injEq, should_index_spec, Bool.and_eq_true,
    List.any_eq_true, Bool.not_eq_true', List.isEmpty_eq_false]
  constructor
  · rintro ⟨⟨r, hr, ⟨hm, ha⟩, hh⟩, ho⟩
    exact ⟨r, hr, hm, ha, hh, ho⟩
  · rintro ⟨r, hr, hm, ha, hh, ho⟩
    exact ⟨⟨r, hr, ⟨hm, ha⟩, hh⟩, ho⟩

/-- Witness for C2 at a concrete indexable course and a constant-true
run-activity predicate. -/
theorem should_index_course_truth_table_witness :
    (runsOf c2Course).countP (matchesAdvertised c2Course) ≤ 1 ∧
    should_index_course (fun _ => true) (embedCM c2Course) =
      .ok (should_index_spec (fun _ => true) c2Course) :=
  ⟨by decide,
    (should_index_course_truth_table (fun _ => true) c2Course (by decide)).1⟩

theorem partitionGo_mem (isActive : PyVal → Bool) :
    ∀ (courses : List ContentMetadata) (ix nix : List String)
      (r : List String × List String),
      partitionGo isActive courses ix nix = .ok r →
      ((∀ k, k ∈ r.1 ↔ (k ∈ ix ∨ ∃ cm ∈ courses, cm.content_key = k ∧
          should_index_course isActive cm = .ok true)) ∧
       (∀ k, k ∈ r.2 ↔ (k ∈ nix ∨ ∃ cm ∈ courses, cm.content_key = k ∧
          should_index_course isActive cm = .ok false)) ∧
       (∀ cm ∈ courses, ∃ b, should_index_course isActive cm = .ok b)) := by
  intro courses
  induction courses with
  | nil =>
    intro ix nix r hok
    simp [partitionGo] at hok
    subst hok
    simp
  | cons cm rest ih =>
    intro ix nix r hok
    cases hb : should_index_course isActive cm with
    | error e => simp [partitionGo, hb, except_bind_error] at hok
    | ok b =>
      cases b with
      | true =>
        have hok' : partitionGo isActive rest (setAddStr ix cm.content_key) nix = .ok r := by
          simpa [partitionGo, hb, except_bind_ok] using hok
        obtain ⟨h1, h2, h3⟩ := ih (setAddStr ix cm.content_key) nix r hok'
        refine ⟨?_, ?_, ?_⟩
        · intro k
          rw [h1 k, mem_setAddStr]
          constructor
          · rintro ((hk | rfl) | ⟨cm', hcm', hkey, hval⟩)
            · exact Or.inl hk
            · exact Or.inr ⟨cm, by simp, rfl, hb⟩
            · exact Or.inr ⟨cm', by simp [hcm'], hkey, hval⟩
          · rintro (hk | ⟨cm', hcm', hkey, hval⟩)
            · exact Or.inl (Or.inl hk)
            · rcases List.mem_cons.1 hcm' with rfl | hcm'
              · exact Or.inl (Or.inr hkey.symm)
              · exact Or.inr ⟨cm', hcm', hkey, hval⟩
        · intro k
          rw [h2 k]
          constructor
          · rintro (hk | ⟨cm', hcm', hkey, hval⟩)
            · exact Or.inl hk
            · exact Or.inr ⟨cm', by simp [hcm'], hkey, hval⟩
          · rintro (hk | ⟨cm', hcm', hkey, hval⟩)
            · exact Or.inl hk
            · rcases List.mem_cons.1 hcm' with rfl | hcm'
              · rw [hb] at hval
                simp at hval
              · exact Or.inr ⟨cm', hcm', hkey, hval⟩
        · intro cm' hcm'
          rcases List.mem_cons.1 hcm' with rfl | hcm'
          · exact ⟨true, hb⟩
          · exact h3 cm' hcm'
      | false =>
        have hok' : partitionGo isActive rest ix (setAddStr nix cm.content_key) = .ok r := by
          simpa [partitionGo, hb, except_bind_ok] using hok
        obtain ⟨h1, h2, h3⟩ := ih ix (setAddStr nix cm.content_key) r hok'
        refine ⟨?_, ?_, ?_⟩
        · intro k
          rw [h1 k]
          constructor
          · rintro (hk | ⟨cm', hcm', hkey, hval⟩)
            · exact Or.inl hk
            · exact Or.inr ⟨cm', by simp [hcm'], hkey, hval⟩
          · rintro (hk | ⟨cm', hcm', hkey, hval⟩)
            · exact Or.inl hk
            · rcases List.mem_cons.1 hcm' with rfl | hcm'
              · rw [hb] at hval
                simp at hval
              · exact Or.inr ⟨cm', hcm', hkey, hval⟩
        · intro k
          rw [h2 k, mem_setAddStr]
          constructor
          · rintro ((hk | rfl) | ⟨cm', hcm', hkey, hval⟩)
            · exact Or.inl hk
            · exact Or.inr ⟨cm, by simp, rfl, hb⟩
            · exact Or.inr ⟨cm', by simp [hcm'], hkey, hval⟩
          · rintro (hk | ⟨cm', hcm', hkey, hval⟩)
            · exact Or.inl (Or.inl hk)
            · rcases List.mem_cons.1 hcm' with rfl | hcm'
              · exact Or.inl (Or.inr hkey.symm)
              · exact Or.inr ⟨cm', hcm', hkey, hval⟩
        · intro cm' hcm'
          rcases List.mem_cons.1 hcm' with rfl | hcm'
          · exact ⟨false, hb⟩
          · exact h3 cm' hcm'

theorem partitionGo_nodup (isActive : PyVal → Bool) :
    ∀ (courses : List ContentMetadata) (ix nix : List String)
      (r : List String × List String),
      partitionGo isActive courses ix nix = .ok r →
      ix.Nodup → nix.Nodup → r.1.Nodup ∧ r.2.Nodup := by
  intro courses
  induction courses with
  | nil =>
    intro ix nix r hok hix hnix
    simp [partitionGo] at hok
    subst hok
    exact ⟨hix, hnix⟩
  | cons cm rest ih =>
    intro ix nix r hok hix hnix
    cases hb : should_index_course isActive cm with
    | error e => simp [partitionGo, hb, except_bind_error] at hok
    | ok b =>
      cases b with
      | true =>
        have hok' : partitionGo isActive rest (setAddStr ix cm.content_key) nix = .ok r := by
          simpa [partitionGo, hb, except_bind_ok] using hok
        exact ih _ _ r hok' (nodup_setAddStr _ _ hix) hnix
      | false =>
        have hok' : partitionGo isActive rest ix (setAddStr nix cm.content_key) = .ok r := by
          simpa [partitionGo, hb, except_bind_ok] using hok
        exact ih _ _ r hok' hix (nodup_setAddStr _ _ hnix)

/-- C3 counterexample: two input records sharing the content key `dupX`
but differing in indexability put `dupX` into both output collections, so
the intersection is not empty. -/
theorem partition_shared_key_counterexample :
    partition_course_keys_for_indexing (fun _ => true) [c3CourseA, c3CourseB] =
      .ok (["dupX"], ["dupX"]) ∧
    ¬ (∀ p : List String × List String,
        partition_course_keys_for_indexing (fun _ => true) [c3CourseA, c3CourseB] =
          .ok p → ∀ k, k ∈ p.1 → k ∉ p.2) := by
  refine ⟨rfl, fun h => ?_⟩
  exact h (["dupX"], ["dupX"]) rfl "dupX" (by simp) (by simp)

/-- C3 (amended): the two collections are duplicate-free and their union
is the set of distinct content keys of the input; they are disjoint
provided any two input records sharing a content key agree on
indexability — in particular whenever content keys are distinct.  (As the
counterexample shows, a key shared by records of different indexability
lands in both collections.) -/
theorem partition_course_keys_partition (isActive : PyVal → Bool)
    (courses : List ContentMetadata) (ix nix : List String)
    (hok : partition_course_keys_for_indexing isActive courses = .ok (ix, nix)) :
    ix.Nodup ∧ nix.Nodup ∧
    (∀ k, (k ∈ ix ∨ k ∈ nix) ↔ k ∈ courses.map (fun cm => cm.content_key)) ∧
    ((∀ cm₁ ∈ courses, ∀ cm₂ ∈ courses, cm₁.content_key = cm₂.content_key →
        should_index_course isActive cm₁ = should_index_course isActive cm₂) →
      ∀ k, k ∈ ix → k ∉ nix) := by
  have hmem := partitionGo_mem isActive courses [] [] (ix, nix) hok
  have hnd := partitionGo_nodup isActive courses [] [] (ix, nix) hok
    List.nodup_nil List.nodup_nil
  obtain ⟨h1, h2, h3⟩ := hmem
  refine ⟨hnd.1, hnd.2, ?_, ?_⟩
  · intro k
    constructor
    · rintro (hk | hk)
      · rcases (h1 k).1 hk with hk' | ⟨cm, hcm, rfl, _⟩
        · simp at hk'
        · exact List.mem_map.2 ⟨cm, hcm, rfl⟩
      · rcases (h2 k).1 hk with hk' | ⟨cm, hcm, rfl, _⟩
        · simp at hk'
        · exact List.mem_map.2 ⟨cm, hcm, rfl⟩
    · intro hk
      obtain ⟨cm, hcm, rfl⟩ := List.mem_map.1 hk
      obtain ⟨b, hb⟩ := h3 cm hcm
      cases b with
      | true => exact Or.inl ((h1 _).2 (Or.inr ⟨cm, hcm, rfl, hb⟩))
      | false => exact Or.inr ((h2 _).2 (Or.inr ⟨cm, hcm, rfl, hb⟩))
  · intro hagree k hkix hknix
    rcases (h1 k).1 hkix with hk' | ⟨cm₁, hcm₁, hkey₁, hval₁⟩
    · simp at hk'
    rcases (h2 k).1 hknix with hk' | ⟨cm₂, hcm₂, hkey₂, hval₂⟩
    · simp at hk'
    have := hagree cm₁ hcm₁ cm₂ hcm₂ (hkey₁.trans hkey₂.symm)
    rw [hval₁, hval₂] at this
    simp at this

/-- Witness for C3 (amended) at a single indexable record. -/
theorem partition_course_keys_partition_witness :
    (["dupX"] : List String).Nodup ∧ ([] : List String).Nodup ∧
    (∀ k, (k ∈ (["dupX"] : List String) ∨ k ∈ ([] : List String)) ↔
      k ∈ ([c3CourseA].map (fun cm => cm.content_key))) ∧
    ((∀ cm₁ ∈ [c3CourseA], ∀ cm₂ ∈ [c3CourseA], cm₁.content_key = cm₂.content_key →
        should_index_course (fun _ => true) cm₁ =
          should_index_course (fun _ => true) cm₂) →
      ∀ k, k ∈ (["dupX"] : List String) → k ∉ ([] : List String)) :=
  partition_course_keys_partition (fun _ => true) [c3CourseA] ["dupX"] [] rfl

theorem pyGet_embed_course_runs (c : WfCourse) :
    pyGet (embedCourseJson c) "course_runs" =
      .ok (match c.course_runs with
           | none => .null
           | some rs => .list (rs.map embedRun)) := by
  cases h : c.course_runs <;> simp [embedCourseJson, h, pyGet, pyGetD, dictLookup]

theorem pyOr_embed_course_runs (c : WfCourse) :
    pyOr (match c.course_runs with
          | none => PyVal.null
          | some rs => PyVal.list (rs.map embedRun)) (.list []) =
      .list ((runsOf c).map embedRun) := by
  cases h : c.course_runs with
  | none => simp [pyOr, truthy, runsOf, h]
  | some rs => cases rs <;> simp [pyOr, truthy, runsOf, h]

theorem pyOr_embedOptStr_str (o : Option String) :
    pyOr (embedOptStr o) (.str "") = .str (o.getD "") := by
  cases o with
  | none => simp [pyOr, embedOptStr, truthy]
  | some s =>
    by_cases hs : s = "" <;> simp [pyOr, embedOptStr, truthy, hs]

theorem availabilityGo_embed : ∀ (rs : List WfRun) (acc : List String),
    availabilityGo (rs.map embedRun) acc =
      .ok (rs.foldl (fun a r => setAddStr a (availabilityMessage (r.availability.getD ""))) acc) := by
  intro rs
  induction rs with
  | nil => intro acc; simp [availabilityGo]
  | cons r rest ih =>
    intro acc
    simp [availabilityGo, pyGet_embedRun_availability, except_bind_ok,
      pyOr_embedOptStr_str, ih]

/-- C8: `get_course_availability` maps the raw availability code of each
active run, lowercased, through the fixed mapping (current to Available
Now, upcoming to Upcoming, anything else or missing to Archived),
deduplicates the labels, and ignores non-active runs entirely:
on every well-formed course record it equals the specification-side
projection `get_course_availability_spec`. -/
theorem get_course_availability_maps_codes (isActive : PyVal → Bool) (c : WfCourse) :
    get_course_availability isActive (embedCourseJson c) =
      .ok (get_course_availability_spec isActive c) := by
  unfold get_course_availability get_course_availability_spec
  rw [pyGet_embed_course_runs]
  simp only [except_bind_ok, pyOr_embed_course_runs, pyIter,
    List.filter_map, availabilityGo_embed]
  rfl

theorem pyOr_list_nil (l : List PyVal) :
    pyOr (.list l) (.list []) = .list l := by
  cases l <;> simp [pyOr, truthy]

theorem pySetAdd_str (acc : List String) (s : String) :
    pySetAdd (acc.map PyVal.str) (.str s) = .ok ((setAddStr acc s).map PyVal.str) := by
  by_cases h : s ∈ acc
  · have hany : (acc.map PyVal.str).any (fun w => pyEq w (.str s)) = true :=
      List.any_eq_true.2 ⟨.str s, List.mem_map.2 ⟨s, h, rfl⟩, by simp [pyEq]⟩
    simp [pySetAdd, pyHashable, setAddStr, hany, h]
  · have hany : (acc.map PyVal.str).any (fun w => pyEq w (.str s)) = false := by
      rw [List.any_eq_false]
      rintro v hv
      obtain ⟨a, ha, rfl⟩ := List.mem_map.1 hv
      simp only [pyEq, beq_iff_eq]
      rintro rfl
      exact h ha
    simp [pySetAdd, pyHashable, setAddStr, hany, h]

theorem subjectsGo_reps : ∀ (items : List (String × Bool)) (acc : List String),
    (∀ p ∈ items, p.1 ≠ "") →
    subjectsGo (items.map embedSubjectRep) (acc.map PyVal.str) =
      .ok (((items.map Prod.fst).foldl setAddStr acc).map PyVal.str) := by
  intro items
  induction items with
  | nil => intro acc _; simp [subjectsGo]
  | cons p rest ih =>
    intro acc hne
    have hp := hne p (by simp)
    have hrest : ∀ q ∈ rest, q.1 ≠ "" :=
      fun q hq => hne q (List.mem_cons_of_mem p hq)
    cases hb : p.2 with
    | true =>
      simp only [List.map_cons, embedSubjectRep, hb, subjectsGo,
        pySetAdd_str, except_bind_ok, List.foldl_cons]
      exact ih (setAddStr acc p.1) hrest
    | false =>
      have hlook : dictLookup [("name", PyVal.str p.1)] "name" = some (.str p.1) := rfl
      have htr : truthy (.str p.1) = true := by
        simpa [truthy] using hp
      simp only [List.map_cons, embedSubjectRep, hb, subjectsGo,
        pyGet, pyGetD, hlook, except_bind_ok, htr, if_true, pySetAdd_str,
        List.foldl_cons]
      exact ih (setAddStr acc p.1) hrest

/-- C9 counterexample: the empty subject name distinguishes the two
representations — the plain string is added unconditionally while the
mapping form is dropped by the truthiness test on the name. -/
theorem get_course_subjects_empty_name_counterexample :
    get_course_subjects (.dict [("subjects", .list [.str ""])]) = .ok [.str ""] ∧
    get_course_subjects (.dict [("subjects", .list [.dict [("name", .str "")]])]) =
      .ok [] ∧
    (Except.ok [PyVal.str ""] : Except PyErr (List PyVal)) ≠ .ok [] := by
  refine ⟨rfl, rfl, ?_⟩
  simp

/-- C9 (amended): for subject names that are non-empty, the projection is
invariant under exchanging the plain-string representation for the
mapping representation of each subject: it returns exactly the
deduplicated names, whatever mix of representations is used. -/
theorem get_course_subjects_format_agnostic (items : List (String × Bool))
    (hne : ∀ p ∈ items, p.1 ≠ "") :
    get_course_subjects (subjectsCourse items) =
      .ok (((items.map Prod.fst).foldl setAddStr []).map PyVal.str) := by
  have h := subjectsGo_reps items [] hne
  unfold get_course_subjects subjectsCourse
  simp [pyGet, pyGetD, dictLookup, except_bind_ok, pyOr_list_nil, pyIter]
  simpa using h

/-- Witness for C9 (amended): the name Communication in both
representations projects to the single deduplicated name. -/
theorem get_course_subjects_format_agnostic_witness :
    (∀ p ∈ [("Communication", true), ("Communication", false)], p.1 ≠ "") ∧
    get_course_subjects (subjectsCourse [("Communication", true), ("Communication", false)]) =
      .ok ((([("Communication", true), ("Communication", false)].map Prod.fst).foldl
        setAddStr []).map PyVal.str) :=
  ⟨by decide, get_course_subjects_format_agnostic _ (by decide)⟩

theorem subjectsGo_wf_total : ∀ (subs : List WfSubject) (acc : List PyVal),
    ∃ out, subjectsGo (subs.map embedSubject) acc = .ok out := by
  intro subs
  induction subs with
  | nil => intro acc; exact ⟨acc, rfl⟩
  | cons sub rest ih =>
    intro acc
    cases sub with
    | plain s =>
      obtain ⟨out, hout⟩ := ih (if acc.any (fun w => pyEq w (.str s)) then acc
        else acc ++ [.str s])
      exact ⟨out, by simpa [subjectsGo, embedSubject, pySetAdd, pyHashable,
        except_bind_ok] using hout⟩
    | mapping o =>
      cases o with
      | none =>
        obtain ⟨out, hout⟩ := ih acc
        exact ⟨out, by simpa [subjectsGo, embedSubject, pyGet, pyGetD, dictLookup,
          truthy, except_bind_ok] using hout⟩
      | some n =>
        by_cases hn : n = ""
        · obtain ⟨out, hout⟩ := ih acc
          exact ⟨out, by simpa [subjectsGo, embedSubject, pyGet, pyGetD, dictLookup,
            truthy, hn, except_bind_ok] using hout⟩
        · obtain ⟨out, hout⟩ := ih (if acc.any (fun w => pyEq w (.str n)) then acc
            else acc ++ [.str n])
          refine ⟨out, ?_⟩
          have htr : truthy (.str n) = true := by simpa [truthy] using hn
          simpa [subjectsGo, embedSubject, pyGet, pyGetD, dictLookup,
            htr, pySetAdd, pyHashable, except_bind_ok] using hout

/-- C7 counterexample: a record whose course_runs is None makes
partitioning raise TypeError — aborting the batch, so the well-formed
record after it is not processed — and a subjects entry that is neither a
string nor a mapping makes the subjects projection raise AttributeError. -/
theorem malformed_record_counterexample :
    partition_course_keys_for_indexing (fun _ => true) [c7NullRuns, c7Good] =
      .error .typeError ∧
    get_course_subjects (.dict [("subjects", .list [.int 42])]) =
      .error .attributeError :=
  ⟨rfl, rfl⟩

/-- C7 (amended): partitioning is total and the batch survives for
records of the well-formed shape, including ones with the course_runs key
absent (classified non-indexable); the subjects projection is total for
subject entries that are strings or mappings, a mapping without a name
being skipped.  (As the counterexample shows, a course_runs value of None
raises TypeError and a non-string non-mapping subjects entry raises
AttributeError, aborting the batch.) -/
theorem partition_total_on_wf (isActive : PyVal → Bool) (cs : List WfCourse)
    (subs : List WfSubject) :
    (∃ r, partition_course_keys_for_indexing isActive (cs.map embedCM) = .ok r ∧
      ∀ c ∈ cs, c.course_runs = none → c.content_key ∈ r.2) ∧
    (∃ out, get_course_subjects (wfSubjectsCourse subs) = .ok out) := by
  constructor
  · have htotal : ∀ (cs' : List WfCourse) (ix nix : List String),
        ∃ r, partitionGo isActive (cs'.map embedCM) ix nix = .ok r := by
      intro cs'
      induction cs' with
      | nil => intro ix nix; exact ⟨(ix, nix), rfl⟩
      | cons c rest ih =>
        intro ix nix
        have hc := should_index_embed isActive c
        cases hval : (match (runsOf c).find? (matchesAdvertised c) with
            | none => false
            | some r₀ => isActive (embedRun r₀) && !r₀.hidden && !c.owners.isEmpty) with
        | true =>
          obtain ⟨r, hr⟩ := ih (setAddStr ix c.content_key) nix
          refine ⟨r, ?_⟩
          rw [hval] at hc
          simpa [partitionGo, hc, except_bind_ok] using hr
        | false =>
          obtain ⟨r, hr⟩ := ih ix (setAddStr nix c.content_key)
          refine ⟨r, ?_⟩
          rw [hval] at hc
          simpa [partitionGo, hc, except_bind_ok] using hr
    obtain ⟨r, hr⟩ := htotal cs [] []
    refine ⟨r, hr, ?_⟩
    intro c hc hnone
    have hmem := partitionGo_mem isActive (cs.map embedCM) [] [] r hr
    have hfalse : should_index_course isActive (embedCM c) = .ok false := by
      have h := should_index_embed isActive c
      simpa [runsOf, hnone] using h
    exact (hmem.2.1 c.content_key).2
      (Or.inr ⟨embedCM c, List.mem_map.2 ⟨c, hc, rfl⟩, rfl, hfalse⟩)
  · have h := subjectsGo_wf_total subs []
    obtain ⟨out, hout⟩ := h
    refine ⟨out, ?_⟩
    unfold wfSubjectsCourse
    simp [get_course_subjects, pyGet, pyGetD, dictLookup, pyOr_list_nil, pyIter,
      except_bind_ok, hout]

/-- Witness for C7 (amended) at one record with no course_runs key and one
mapping subject without a name. -/
theorem partition_total_on_wf_witness :
    (∃ r, partition_course_keys_for_indexing (fun _ => true)
        ([c7NoRuns].map embedCM) = .ok r ∧
      ∀ c ∈ [c7NoRuns], c.course_runs = none → c.content_key ∈ r.2) ∧
    (∃ out, get_course_subjects (wfSubjectsCourse [.mapping none]) = .ok out) :=
  partition_total_on_wf (fun _ => true) [c7NoRuns] [.mapping none]

theorem le_foldl_max (l : List Nat) : ∀ (a : Nat),
    a ≤ l.foldl Nat.max a ∧ ∀ x ∈ l, x ≤ l.foldl Nat.max a := by
  induction l with
  | nil => intro a; exact ⟨Nat.le_refl a, by simp⟩
  | cons y ys ih =>
    intro a
    obtain ⟨h1, h2⟩ := ih (Nat.max a y)
    refine ⟨Nat.le_trans (Nat.le_max_left a y) h1, ?_⟩
    intro x hx
    rcases List.mem_cons.1 hx with rfl | hx
    · exact Nat.le_trans (Nat.le_max_right a x) h1
    · exact h2 x hx

theorem heapLookup_some_mem (h : Heap) (a : Nat)
    (x : List (String × PyVal)) (hx : heapLookup h a = some x) :
    ∃ p ∈ h, p.1 = a := by
  induction h with
  | nil => simp [heapLookup] at hx
  | cons p rest ih =>
    by_cases hpa : p.1 = a
    · exact ⟨p, by simp, hpa⟩
    · have hbeq : (p.1 == a) = false := by simpa using hpa
      have hx' : heapLookup rest a = some x := by
        simpa [heapLookup, hbeq] using hx
      obtain ⟨q, hq, hqa⟩ := ih hx'
      exact ⟨q, by simp [hq], hqa⟩

theorem key_lt_freshAddr (h : Heap) (p : Nat × List (String × PyVal))
    (hp : p ∈ h) : p.1 < freshAddr h := by
  have := (le_foldl_max (h.map (fun q => q.1)) 0).2 p.1 (List.mem_map.2 ⟨p, hp, rfl⟩)
  unfold freshAddr
  omega

theorem heapLookup_append_of_some (h : Heap) (a : Nat)
    (x : List (String × PyVal)) (hx : heapLookup h a = some x) (t : Heap) :
    heapLookup (h ++ t) a = some x := by
  induction h with
  | nil => simp [heapLookup] at hx
  | cons p rest ih =>
    by_cases hpa : (p.1 == a) = true
    · simpa [heapLookup, hpa] using hx
    · have hbeq : (p.1 == a) = false := by simpa using hpa
      have hx' : heapLookup rest a = some x := by
        simpa [heapLookup, hbeq] using hx
      simpa [heapLookup, hbeq] using ih hx'

theorem heapLookup_heapSet_ne (h : Heap) (a b : Nat)
    (kvs : List (String × PyVal)) (hne : b ≠ a) :
    heapLookup (heapSet h b kvs) a = heapLookup h a := by
  induction h with
  | nil => simp [heapLookup, heapSet]
  | cons p rest ih =>
    have ih' : heapLookup (rest.map (fun q => if q.1 = b then (b, kvs) else q)) a =
        heapLookup rest a := by simpa [heapSet] using ih
    by_cases hpb : p.1 = b
    · have hba : (b == a) = false := by simpa using hne
      have hpa : (p.1 == a) = false := by
        subst hpb
        simpa using hne
      simp [heapSet, heapLookup, if_pos hpb, hba, hpa, ih']
    · by_cases hpa : (p.1 == a) = true <;>
        simp [heapSet, heapLookup, if_neg hpb, hpa, ih']

/-- C10: `_algolia_object_from_course` leaves its input argument
unchanged — the course dict is copied to a fresh address before the
derived fields are written, so whatever the projection does (including
raising), the contents at the caller's address are identical before and
after the call. -/
theorem algolia_object_from_course_frame (isActive : PyVal → Bool)
    (fields : List String) (h : Heap) (a : Nat)
    (contents : List (String × PyVal)) (hlive : heapLookup h a = some contents) :
    heapLookup (algolia_object_from_course isActive fields h a).2 a =
      some contents := by
  have hfresh : freshAddr h ≠ a := by
    obtain ⟨p, hp, hpa⟩ := heapLookup_some_mem h a contents hlive
    have := key_lt_freshAddr h p hp
    omega
  have h1 : heapLookup (h ++ [(freshAddr h, contents)]) a = some contents :=
    heapLookup_append_of_some h a contents hlive _
  unfold algolia_object_from_course
  rw [hlive]
  cases hd : derivedFields isActive (PyVal.dict contents) with
  | error e =>
    simp only [hd]
    simpa using h1
  | ok derived =>
    simp only [hd]
    rw [heapLookup_heapSet_ne _ a (freshAddr h) _ hfresh]
    exact h1

/-- Witness for C10 at a one-object heap. -/
theorem algolia_object_from_course_frame_witness :
    heapLookup [(0, [("title", PyVal.str "t")])] 0 = some [("title", PyVal.str "t")] ∧
    heapLookup (algolia_object_from_course (fun _ => true) ["title"]
        [(0, [("title", PyVal.str "t")])] 0).2 0 = some [("title", PyVal.str "t")] :=
  ⟨rfl, algolia_object_from_course_frame (fun _ => true) ["title"]
    [(0, [("title", PyVal.str "t")])] 0 [("title", PyVal.str "t")] rfl⟩

theorem task_recently_run_single_false (now delta : Nat) (t : BoundTask)
    (r : TaskResultRec)
    (h : (r.task_name == t.name && r.task_args == t.request_args &&
          r.task_kwargs == t.request_kwargs &&
          decide (now - delta ≤ r.date_created)) = false ∨
         (r.task_id != t.request_id) = false) :
    task_recently_run [r] now delta t = false := by
  have hnil : ((([r] : List TaskResultRec).filter (fun r =>
      r.task_name == t.name && r.task_args == t.request_args &&
        r.task_kwargs == t.request_kwargs &&
        decide (now - delta ≤ r.date_created))).filter
      (fun r => r.task_id != t.request_id)) = [] := by
    apply List.eq_nil_iff_forall_not_mem.2
    intro x hx
    obtain ⟨hx2, hid⟩ := List.mem_filter.1 hx
    obtain ⟨hxr, hquery⟩ := List.mem_filter.1 hx2
    have hxeq : x = r := by simpa using hxr
    subst hxeq
    rcases h with h | h
    · rw [h] at hquery
      simp at hquery
    · rw [h] at hid
      simp at hid
  unfold task_recently_run
  rw [hnil]
  rfl

/-- C1 counterexample: a record whose status is the terminal SUCCESS but
which matches the invocation in job name, serialized args and kwargs,
lies within the recency window and carries a different execution id still
raises TaskRecentlyRunError — exactly the situation of
test_semaphore_raises_recent_run_error_for_same_args — so making the
status ready does not allow execution, contrary to the claim. -/
theorem semaphore_ready_status_counterexample :
    c1SuccessRecord.status ∉ UNREADY_STATES ∧
    expiring_task_semaphore [c1SuccessRecord] 100 3600 c1Task (42 : Nat) =
      .error ⟨"mock_task", "[123, 77]", "{}"⟩ :=
  ⟨by decide, rfl⟩

/-- C1 (amended): whenever the store holds a JobRecord with the same job
name, a creation time within the recency window, serialized args and
kwargs equal to the invocation, and an execution id different from the
invocation's own — whatever its status — the wrapped task raises
TaskRecentlyRunError carrying the job name and args; and flipping any one
of the three conditions the program does check (record older than the
window, different args or kwargs, same execution id) lets the work run
and returns its result unchanged.  Making the status ready does not allow
execution; see the counterexample. -/
theorem expiring_task_semaphore_gate (α : Type) (store : List TaskResultRec)
    (now delta : Nat) (t : BoundTask) (work : α) :
    (∀ r ∈ store, r.task_name = t.name →
      now - delta ≤ r.date_created → r.task_args = t.request_args →
      r.task_kwargs = t.request_kwargs → r.task_id ≠ t.request_id →
      expiring_task_semaphore store now delta t work =
        .error ⟨t.name, t.request_args, t.request_kwargs⟩) ∧
    (∀ r : TaskResultRec, r.date_created < now - delta →
      expiring_task_semaphore [r] now delta t work = .ok work) ∧
    (∀ r : TaskResultRec,
      r.task_args ≠ t.request_args ∨ r.task_kwargs ≠ t.request_kwargs →
      expiring_task_semaphore [r] now delta t work = .ok work) ∧
    (∀ r : TaskResultRec, r.task_id = t.request_id →
      expiring_task_semaphore [r] now delta t work = .ok work) := by
  refine ⟨?_, ?_, ?_, ?_⟩
  · intro r hr hname hdate hargs hkwargs hid
    have hmem : r ∈ ((store.filter (fun r =>
        r.task_name == t.name && r.task_args == t.request_args &&
          r.task_kwargs == t.request_kwargs &&
          decide (now - delta ≤ r.date_created))).filter
        (fun r => r.task_id != t.request_id)) := by
      refine List.mem_filter.2 ⟨List.mem_filter.2 ⟨hr, ?_⟩, ?_⟩
      · simp [hname, hargs, hkwargs, hdate]
      · simpa using hid
    have htrr : task_recently_run store now delta t = true := by
      unfold task_recently_run
      have := List.ne_nil_of_mem hmem
      simpa [List.isEmpty_iff] using this
    simp [expiring_task_semaphore, htrr]
  · intro r hdate
    have hd : decide (now - delta ≤ r.date_created) = false :=
      decide_eq_false (by omega)
    have hfalse : (r.task_name == t.name && r.task_args == t.request_args &&
        r.task_kwargs == t.request_kwargs &&
        decide (now - delta ≤ r.date_created)) = false := by
      cases h1 : (r.task_name == t.name) <;>
        cases h2 : (r.task_args == t.request_args) <;>
        cases h3 : (r.task_kwargs == t.request_kwargs) <;> simp_all
    have htrr := task_recently_run_single_false now delta t r (Or.inl hfalse)
    simp [expiring_task_semaphore, htrr]
  · intro r hargs
    have hfalse : (r.task_name == t.name && r.task_args == t.request_args &&
        r.task_kwargs == t.request_kwargs &&
        decide (now - delta ≤ r.date_created)) = false := by
      rcases hargs with h | h <;>
        (cases h1 : (r.task_name == t.name) <;>
          cases h2 : (r.task_args == t.request_args) <;>
          cases h3 : (r.task_kwargs == t.request_kwargs) <;>
          cases h4 : decide (now - delta ≤ r.date_created) <;> simp_all)
    have htrr := task_recently_run_single_false now delta t r (Or.inl hfalse)
    simp [expiring_task_semaphore, htrr]
  · intro r hid
    have hb : (r.task_id != t.request_id) = false := by
      simpa using hid
    have htrr := task_recently_run_single_false now delta t r (Or.inr hb)
    simp [expiring_task_semaphore, htrr]

/-- Witness for C1 (amended): the blocking case and the three
single-condition flips at concrete records. -/
theorem expiring_task_semaphore_gate_witness :
    expiring_task_semaphore [c1Record] 100 3600 c1Task (42 : Nat) =
      .error ⟨"mock_task", "[123, 77]", "{}"⟩ ∧
    expiring_task_semaphore [{ c1Record with date_created := 0 }] 4000 3600
      c1Task (42 : Nat) = .ok 42 ∧
    expiring_task_semaphore [{ c1Record with task_args := "[1]" }] 100 3600
      c1Task (42 : Nat) = .ok 42 ∧
    expiring_task_semaphore [{ c1Record with task_id := "my-id" }] 100 3600
      c1Task (42 : Nat) = .ok 42 :=
  ⟨(expiring_task_semaphore_gate Nat [c1Record] 100 3600 c1Task 42).1 c1Record
      (by simp) rfl (by decide) rfl rfl (by decide),
    (expiring_task_semaphore_gate Nat [c1Record] 4000 3600 c1Task 42).2.1 _
      (by decide),
    (expiring_task_semaphore_gate Nat [c1Record] 100 3600 c1Task 42).2.2.1 _
      (Or.inl (by decide)),
    (expiring_task_semaphore_gate Nat [c1Record] 100 3600 c1Task 42).2.2.2 _
      (by decide)⟩

theorem charsLe_total : ∀ xs ys : List Char,
    charsLe xs ys = true ∨ charsLe ys xs = true := by
  intro xs
  induction xs with
  | nil => intro ys; exact Or.inl rfl
  | cons c cs ih =>
    intro ys
    cases ys with
    | nil => exact Or.inr rfl
    | cons d ds =>
      by_cases h1 : c.toNat < d.toNat
      · exact Or.inl (by simp [charsLe, h1])
      · by_cases h2 : d.toNat < c.toNat
        · exact Or.inr (by simp [charsLe, h2])
        · rcases ih ds with h | h
          · exact Or.inl (by simp [charsLe, h1, h2, h])
          · exact Or.inr (by simp [charsLe, h1, h2, h])

theorem strLe_total (a b : String) : strLe a b = true ∨ strLe b a = true :=
  charsLe_total a.toList b.toList

theorem charsLe_trans : ∀ xs ys zs : List Char,
    charsLe xs ys = true → charsLe ys zs = true → charsLe xs zs = true := by
  intro xs
  induction xs with
  | nil => intro ys zs _ _; rfl
  | cons c cs ih =>
    intro ys zs hxy hyz
    cases ys with
    | nil => simp [charsLe] at hxy
    | cons d ds =>
      cases zs with
      | nil => simp [charsLe] at hyz
      | cons e es =>
        by_cases h1 : c.toNat < d.toNat
        · by_cases h2 : d.toNat < e.toNat
          · have h3 : c.toNat < e.toNat := by omega
            simp [charsLe, h3]
          · by_cases h4 : e.toNat < d.toNat
            · simp [charsLe, h2, h4] at hyz
            · have h3 : c.toNat < e.toNat := by omega
              simp [charsLe, h3]
        · by_cases h5 : d.toNat < c.toNat
          · simp [charsLe, h1, h5] at hxy
          · by_cases h2 : d.toNat < e.toNat
            · have h3 : c.toNat < e.toNat := by omega
              simp [charsLe, h3]
            · by_cases h4 : e.toNat < d.toNat
              · simp [charsLe, h2, h4] at hyz
              · have h3 : ¬ c.toNat < e.toNat := by omega
                have h6 : ¬ e.toNat < c.toNat := by omega
                have hrec := ih ds es (by simpa [charsLe, h1, h5] using hxy)
                  (by simpa [charsLe, h2, h4] using hyz)
                simp [charsLe, h3, h6, hrec]

theorem strLe_trans (a b c : String) (h1 : strLe a b = true)
    (h2 : strLe b c = true) : strLe a c = true :=
  charsLe_trans a.toList b.toList c.toList h1 h2

theorem strInsert_perm (x : String) (l : List String) :
    (strInsert x l).Perm (x :: l) := by
  induction l with
  | nil => exact List.Perm.refl _
  | cons y ys ih =>
    by_cases h : strLe x y = true
    · simp [strInsert, h]
    · simp only [strInsert, if_neg h]
      exact (ih.cons y).trans (List.Perm.swap x y ys)

theorem sortStrings_perm (l : List String) : (sortStrings l).Perm l := by
  induction l with
  | nil => exact List.Perm.refl _
  | cons x xs ih => exact (strInsert_perm x (sortStrings xs)).trans (ih.cons x)

theorem sorted_strInsert (x : String) (l : List String)
    (hl : List.Sorted (fun a b => strLe a b = true) l) :
    List.Sorted (fun a b => strLe a b = true) (strInsert x l) := by
  induction l with
  | nil => exact List.sorted_singleton x
  | cons y ys ih =>
    obtain ⟨hy, hys⟩ := List.sorted_cons.1 hl
    by_cases h : strLe x y = true
    · simp only [strInsert, if_pos h]
      rw [List.sorted_cons]
      refine ⟨?_, hl⟩
      intro z hz
      rcases List.mem_cons.1 hz with rfl | hz
      · exact h
      · exact strLe_trans x y z h (hy z hz)
    · simp only [strInsert, if_neg h]
      rw [List.sorted_cons]
      refine ⟨?_, ih hys⟩
      intro z hz
      rcases List.mem_cons.1 ((strInsert_perm x ys).mem_iff.1 hz) with heq | hz
      · rw [heq]
        rcases strLe_total x y with ht | ht
        · exact absurd ht h
        · exact ht
      · exact hy z hz

theorem sorted_sortStrings (l : List String) :
    List.Sorted (fun a b => strLe a b = true) (sortStrings l) := by
  induction l with
  | nil => exact List.sorted_nil
  | cons x xs ih => exact sorted_strInsert x (sortStrings xs) ih

theorem chunkedGo_flatten {α : Type} (k : Nat) : ∀ (fuel : Nat) (xs : List α),
    xs.length ≤ fuel → (chunkedGo k fuel xs).flatten = xs := by
  intro fuel
  induction fuel with
  | zero =>
    intro xs h
    cases xs with
    | nil => rfl
    | cons x xs' => simp at h
  | succ n ih =>
    intro xs h
    cases xs with
    | nil => rfl
    | cons x xs' =>
      have hlen : (xs'.drop k).length ≤ n := by
        simp only [List.length_drop]
        simp only [List.length_cons] at h
        omega
      simp only [chunkedGo, List.flatten_cons, ih (xs'.drop k) hlen]
      simp [List.take_append_drop]

theorem chunkedGo_length {α : Type} (k : Nat) : ∀ (fuel : Nat) (xs : List α),
    xs.length ≤ fuel → (chunkedGo k fuel xs).length = (xs.length + k) / (k + 1) := by
  intro fuel
  induction fuel with
  | zero =>
    intro xs h
    cases xs with
    | nil => simp [chunkedGo, Nat.div_eq_of_lt (Nat.lt_succ_of_le (Nat.le_refl k))]
    | cons x xs' => simp at h
  | succ n ih =>
    intro xs h
    cases xs with
    | nil => simp [chunkedGo, Nat.div_eq_of_lt (Nat.lt_succ_of_le (Nat.le_refl k))]
    | cons x xs' =>
      have hlen : (xs'.drop k).length ≤ n := by
        simp only [List.length_drop]
        simp only [List.length_cons] at h
        omega
      simp only [chunkedGo, List.length_cons, ih (xs'.drop k) hlen,
        List.length_drop]
      have harith : xs'.length + 1 + k = xs'.length + (k + 1) := by omega
      rw [harith, Nat.add_div_right _ (by omega : 0 < k + 1)]
      suffices hsuff : (xs'.length - k + k) / (k + 1) = xs'.length / (k + 1) by omega
      by_cases hk : k ≤ xs'.length
      · have : xs'.length - k + k = xs'.length := by omega
        rw [this]
      · have h1 : xs'.length - k = 0 := by omega
        rw [h1]
        rw [Nat.div_eq_of_lt (by omega), Nat.div_eq_of_lt (by omega)]

theorem chunkedGo_mem_size {α : Type} (k : Nat) : ∀ (fuel : Nat) (xs : List α),
    xs.length ≤ fuel → ∀ c ∈ chunkedGo k fuel xs, c.length ≤ k + 1 ∧ c ≠ [] := by
  intro fuel
  induction fuel with
  | zero =>
    intro xs h c hc
    cases xs with
    | nil => simp [chunkedGo] at hc
    | cons x xs' => simp at h
  | succ n ih =>
    intro xs h c hc
    cases xs with
    | nil => simp [chunkedGo] at hc
    | cons x xs' =>
      have hlen : (xs'.drop k).length ≤ n := by
        simp only [List.length_drop]
        simp only [List.length_cons] at h
        omega
      simp only [chunkedGo, List.mem_cons] at hc
      rcases hc with rfl | hc
      · constructor
        · simp only [List.length_cons]
          have := List.length_take_le k xs'
          omega
        · simp
      · exact ih (xs'.drop k) hlen c hc

theorem chunked_flatten {α : Type} (b : Nat) (xs : List α) :
    (chunked b xs).flatten = xs :=
  chunkedGo_flatten _ _ _ (Nat.le_refl _)

theorem chunked_length {α : Type} (b : Nat) (xs : List α) (hb : 0 < b) :
    (chunked b xs).length = (xs.length + b - 1) / b := by
  unfold chunked
  rw [chunkedGo_length _ _ _ (Nat.le_refl _)]
  have hm : Nat.max b 1 = b := Nat.max_eq_left hb
  rw [hm]
  have e1 : b - 1 + 1 = b := by omega
  have e2 : xs.length + (b - 1) = xs.length + b - 1 := by omega
  rw [e1, e2]

theorem chunked_mem_size {α : Type} (b : Nat) (xs : List α) (hb : 0 < b) :
    ∀ c ∈ chunked b xs, c.length ≤ b ∧ c ≠ [] := by
  intro c hc
  unfold chunked at hc
  have h := chunkedGo_mem_size (Nat.max b 1 - 1) xs.length xs (Nat.le_refl _) c hc
  have hm : Nat.max b 1 = b := Nat.max_eq_left hb
  rw [hm] at h
  exact ⟨by omega, h.2⟩

/-- C6: for every association kind of every course, the batched fan-out
emits batches whose concatenation is the lexicographically sorted
permutation of the UUID list, chunked into consecutive non-empty groups of
at most B, with exactly (n + B - 1) / B = ceil(n / B) objects — zero
objects when the list is empty. -/
theorem batched_uuid_objects_chunking (base key kind fld : String)
    (uuids : List String) (b : Nat) (hb : 0 < b) :
    ((batched_uuid_objects base key kind fld uuids b).map
        (fun o => o.assocUuids)).flatten = sortStrings uuids ∧
    List.Sorted (fun a c => strLe a c = true) (sortStrings uuids) ∧
    (sortStrings uuids).Perm uuids ∧
    (batched_uuid_objects base key kind fld uuids b).length =
      (uuids.length + b - 1) / b ∧
    (∀ o ∈ batched_uuid_objects base key kind fld uuids b,
      o.assocUuids.length ≤ b ∧ o.assocUuids ≠ []) ∧
    (uuids = [] → batched_uuid_objects base key kind fld uuids b = []) := by
  have hmap : (batched_uuid_objects base key kind fld uuids b).map
      (fun o => o.assocUuids) = chunked b (sortStrings uuids) := by
    unfold batched_uuid_objects
    rw [List.map_map]
    have hcomp : ((fun o : IndexObject => o.assocUuids) ∘
        (fun p : Nat × List String =>
          ({ objectID := base ++ "-" ++ kind ++ "-uuids-" ++ toString p.1,
             key := key, assocField := fld, assocUuids := p.2 } : IndexObject))) =
        Prod.snd := rfl
    rw [hcomp, List.enum_map_snd]
  refine ⟨?_, sorted_sortStrings uuids, sortStrings_perm uuids, ?_, ?_, ?_⟩
  · rw [hmap, chunked_flatten]
  · unfold batched_uuid_objects
    rw [List.length_map, List.enum_length, chunked_length _ _ hb,
      (sortStrings_perm uuids).length_eq]
  · intro o ho
    have : o.assocUuids ∈ chunked b (sortStrings uuids) := by
      rw [← hmap]
      exact List.mem_map.2 ⟨o, ho, rfl⟩
    exact chunked_mem_size b (sortStrings uuids) hb o.assocUuids this
  · intro h
    subst h
    rfl

/-- Witness for C6 at batch size 1 and the UUID list b, a, c of the
specification example, together with the two concrete example equations
(three singleton objects at B = 1, one full object at B = 100). -/
theorem batched_uuid_objects_chunking_witness :
    batched_uuid_objects "course-cu" "fakeX" "catalog" "enterprise_catalog_uuids"
        ["b", "a", "c"] 1 =
      [⟨"course-cu-catalog-uuids-0", "fakeX", "enterprise_catalog_uuids", ["a"]⟩,
       ⟨"course-cu-catalog-uuids-1", "fakeX", "enterprise_catalog_uuids", ["b"]⟩,
       ⟨"course-cu-catalog-uuids-2", "fakeX", "enterprise_catalog_uuids", ["c"]⟩] ∧
    batched_uuid_objects "course-cu" "fakeX" "catalog" "enterprise_catalog_uuids"
        ["b", "a", "c"] 100 =
      [⟨"course-cu-catalog-uuids-0", "fakeX", "enterprise_catalog_uuids",
        ["a", "b", "c"]⟩] ∧
    (0 < 1 ∧
      (((batched_uuid_objects "course-cu" "fakeX" "catalog"
            "enterprise_catalog_uuids" ["b", "a", "c"] 1).map
          (fun o => o.assocUuids)).flatten = sortStrings ["b", "a", "c"] ∧
       List.Sorted (fun a c => strLe a c = true) (sortStrings ["b", "a", "c"]) ∧
       (sortStrings ["b", "a", "c"]).Perm ["b", "a", "c"] ∧
       (batched_uuid_objects "course-cu" "fakeX" "catalog"
          "enterprise_catalog_uuids" ["b", "a", "c"] 1).length =
         ((["b", "a", "c"] : List String).length + 1 - 1) / 1 ∧
       (∀ o ∈ batched_uuid_objects "course-cu" "fakeX" "catalog"
            "enterprise_catalog_uuids" ["b", "a", "c"] 1,
          o.assocUuids.length ≤ 1 ∧ o.assocUuids ≠ []) ∧
       ((["b", "a", "c"] : List String) = [] →
         batched_uuid_objects "course-cu" "fakeX" "catalog"
           "enterprise_catalog_uuids" ["b", "a", "c"] 1 = []))) :=
  ⟨rfl, rfl, by decide,
    batched_uuid_objects_chunking "course-cu" "fakeX" "catalog"
      "enterprise_catalog_uuids" ["b", "a", "c"] 1 (by decide)⟩

/-- C4 counterexample: the emitted identifier is built from the course's
own top-level uuid, not from the uuid of its advertised course run: for a
course with uuid cu and advertised run uuid ru, the single catalog object
has objectID course-cu-catalog-uuids-0, which differs from the
course-ru-catalog-uuids-0 the claim prescribes. -/
theorem fanout_objectID_counterexample :
    c4Course.uuid = "cu" ∧
    c4Course.advertised_course_run_uuid = some "ru" ∧
    course_fanout c4Course.uuid c4Course.content_key ⟨["a"], [], []⟩ 100 =
      [⟨"course-cu-catalog-uuids-0", "fakeX", "enterprise_catalog_uuids", ["a"]⟩] ∧
    "course-cu-catalog-uuids-0" ≠ "course-ru-catalog-uuids-0" :=
  ⟨rfl, rfl, rfl, by decide⟩

theorem batched_uuid_objects_mem (base key kind fld : String)
    (uuids : List String) (b : Nat) :
    ∀ o ∈ batched_uuid_objects base key kind fld uuids b,
      o.key = key ∧ o.assocField = fld ∧
      ∃ i, i < (chunked b (sortStrings uuids)).length ∧
        o.objectID = base ++ "-" ++ kind ++ "-uuids-" ++ toString i ∧
        o.assocUuids = (chunked b (sortStrings uuids)).getD i [] := by
  intro o ho
  unfold batched_uuid_objects at ho
  obtain ⟨p, hp, rfl⟩ := List.mem_map.1 ho
  obtain ⟨i, batch⟩ := p
  have hmem := List.mem_enum hp
  refine ⟨rfl, rfl, i, hmem.1, rfl, ?_⟩
  rw [List.getD_eq_getElem _ _ hmem.1]
  exact hmem.2

/-- C4 (amended): every batched fan-out object of a course carries the
course content key, exactly one association field (that of its kind), and
the identifier course-{course_uuid}-{kind}-uuids-{i} where course_uuid is
the course's own top-level uuid and i the batch index of its chunk of the
sorted UUID list of that kind. -/
theorem course_fanout_object_shape (course_uuid content_key : String)
    (assoc : AssocSet) (b : Nat) :
    ∀ o ∈ course_fanout course_uuid content_key assoc b,
      o.key = content_key ∧
      ∃ kind fld uuids,
        ((kind, fld, uuids) =
            ("catalog", "enterprise_catalog_uuids", assoc.catalog_uuids) ∨
          (kind, fld, uuids) =
            ("customer", "enterprise_customer_uuids", assoc.customer_uuids) ∨
          (kind, fld, uuids) =
            ("catalog-query", "enterprise_catalog_query_uuids",
              assoc.catalog_query_uuids)) ∧
        o.assocField = fld ∧
        ∃ i, i < (chunked b (sortStrings uuids)).length ∧
          o.objectID = "course-" ++ course_uuid ++ "-" ++ kind ++ "-uuids-" ++
            toString i ∧
          o.assocUuids = (chunked b (sortStrings uuids)).getD i [] := by
  intro o ho
  unfold course_fanout at ho
  rcases List.mem_append.1 ho with ho' | ho'
  · rcases List.mem_append.1 ho' with ho'' | ho''
    · obtain ⟨hkey, hfld, hrest⟩ := batched_uuid_objects_mem _ _ _ _ _ _ o ho''
      exact ⟨hkey, "catalog", "enterprise_catalog_uuids", assoc.catalog_uuids,
        Or.inl rfl, hfld, hrest⟩
    · obtain ⟨hkey, hfld, hrest⟩ := batched_uuid_objects_mem _ _ _ _ _ _ o ho''
      exact ⟨hkey, "customer", "enterprise_customer_uuids", assoc.customer_uuids,
        Or.inr (Or.inl rfl), hfld, hrest⟩
  · obtain ⟨hkey, hfld, hrest⟩ := batched_uuid_objects_mem _ _ _ _ _ _ o ho'
    exact ⟨hkey, "catalog-query", "enterprise_catalog_query_uuids",
      assoc.catalog_query_uuids, Or.inr (Or.inr rfl), hfld, hrest⟩

/-- Witness for C4 (amended) at the single catalog object of a concrete
course. -/
theorem course_fanout_object_shape_witness :
    (⟨"course-cu-catalog-uuids-0", "fakeX", "enterprise_catalog_uuids", ["a"]⟩ :
        IndexObject) ∈ course_fanout "cu" "fakeX" ⟨["a"], [], []⟩ 100 ∧
    ((⟨"course-cu-catalog-uuids-0", "fakeX", "enterprise_catalog_uuids", ["a"]⟩ :
        IndexObject).key = "fakeX" ∧
      ∃ kind fld uuids,
        ((kind, fld, uuids) = ("catalog", "enterprise_catalog_uuids",
            (⟨["a"], [], []⟩ : AssocSet).catalog_uuids) ∨
          (kind, fld, uuids) = ("customer", "enterprise_customer_uuids",
            (⟨["a"], [], []⟩ : AssocSet).customer_uuids) ∨
          (kind, fld, uuids) = ("catalog-query", "enterprise_catalog_query_uuids",
            (⟨["a"], [], []⟩ : AssocSet).catalog_query_uuids)) ∧
        (⟨"course-cu-catalog-uuids-0", "fakeX", "enterprise_catalog_uuids",
            ["a"]⟩ : IndexObject).assocField = fld ∧
        ∃ i, i < (chunked 100 (sortStrings uuids)).length ∧
          (⟨"course-cu-catalog-uuids-0", "fakeX", "enterprise_catalog_uuids",
              ["a"]⟩ : IndexObject).objectID =
            "course-" ++ "cu" ++ "-" ++ kind ++ "-uuids-" ++ toString i ∧
          (⟨"course-cu-catalog-uuids-0", "fakeX", "enterprise_catalog_uuids",
              ["a"]⟩ : IndexObject).assocUuids =
            (chunked 100 (sortStrings uuids)).getD i []) :=
  ⟨by decide,
    course_fanout_object_shape "cu" "fakeX" ⟨["a"], [], []⟩ 100 _ (by decide)⟩

theorem cycleStep_foldl_fresh (objectsFor : String → List IndexObject) :
    ∀ (keys : List String) (p : List IndexObject) (cs cache : List String),
      (∀ k ∈ keys, k ∉ cache) → keys.Nodup →
      keys.foldl (cycleStep objectsFor) ⟨p, cs, cache⟩ =
        ⟨p ++ keys.flatMap objectsFor, cs ++ keys, cache ++ keys⟩ := by
  intro keys
  induction keys with
  | nil => intro p cs cache _ _; simp
  | cons k rest ih =>
    intro p cs cache hfresh hnd
    have hk : k ∉ cache := hfresh k (by simp)
    have hrest : ∀ k' ∈ rest, k' ∉ cache ++ [k] := by
      intro k' hk'
      simp only [List.mem_append, List.mem_singleton]
      rintro (hc | rfl)
      · exact hfresh k' (by simp [hk']) hc
      · exact (List.nodup_cons.1 hnd).1 hk'
    have hstep : cycleStep objectsFor ⟨p, cs, cache⟩ k =
        ⟨p ++ objectsFor k, cs ++ [k], cache ++ [k]⟩ := by
      simp [cycleStep, hk]
    simp only [List.foldl_cons, hstep,
      ih (p ++ objectsFor k) (cs ++ [k]) (cache ++ [k]) hrest
        (List.nodup_cons.1 hnd).2]
    simp [List.flatMap_cons, List.append_assoc]

theorem cycleStep_foldl_hit (objectsFor : String → List IndexObject) :
    ∀ (keys : List String) (p : List IndexObject) (cs cache : List String),
      (∀ k ∈ keys, k ∈ cache) →
      keys.foldl (cycleStep objectsFor) ⟨p, cs, cache⟩ = ⟨p, cs ++ keys, cache⟩ := by
  intro keys
  induction keys with
  | nil => intro p cs cache _; simp
  | cons k rest ih =>
    intro p cs cache hhit
    have hk : k ∈ cache := hhit k (by simp)
    have hstep : cycleStep objectsFor ⟨p, cs, cache⟩ k = ⟨p, cs ++ [k], cache⟩ := by
      simp [cycleStep, hk]
    simp only [List.foldl_cons, hstep,
      ih p (cs ++ [k]) cache (fun k' hk' => hhit k' (by simp [hk']))]
    simp

/-- C5: running the synchronizer cycle twice back to back on unchanged
course data, starting from an empty recently-indexed cache and staying
within the cache TTL (the cache state carries over), the first cycle hands
the replace-all call the full aggregate of index objects of the indexable
courses and the second hands it the empty list; in each cycle the cache
membership check is made exactly once per indexable course (the check
sequence is exactly the duplicate-free indexable key list). -/
theorem index_synchronizer_idempotent (isActive : PyVal → Bool)
    (courses : List ContentMetadata) (objectsFor : String → List IndexObject)
    (ix nix : List String)
    (hok : partition_course_keys_for_indexing isActive courses = .ok (ix, nix)) :
    ∃ r1 r2 : CycleResult,
      index_synchronizer_cycle isActive courses objectsFor [] = .ok r1 ∧
      index_synchronizer_cycle isActive courses objectsFor r1.cacheAfter = .ok r2 ∧
      r1.payload = ix.flatMap objectsFor ∧
      r2.payload = [] ∧
      r1.cacheChecks = ix ∧
      r2.cacheChecks = ix ∧
      ix.Nodup := by
  have hnd := (partitionGo_nodup isActive courses [] [] (ix, nix) hok
    List.nodup_nil List.nodup_nil).1
  have hrun1 : index_synchronizer_cycle isActive courses objectsFor [] =
      .ok ⟨ix.flatMap objectsFor, ix, ix⟩ := by
    unfold index_synchronizer_cycle
    rw [hok]
    simp only [except_bind_ok]
    rw [cycleStep_foldl_fresh objectsFor ix [] [] [] (by simp) hnd]
    simp [except_pure_eq_ok]
  have hrun2 : index_synchronizer_cycle isActive courses objectsFor ix =
      .ok ⟨[], ix, ix⟩ := by
    unfold index_synchronizer_cycle
    rw [hok]
    simp only [except_bind_ok]
    rw [cycleStep_foldl_hit objectsFor ix [] [] ix (by simp)]
    simp [except_pure_eq_ok]
  exact ⟨⟨ix.flatMap objectsFor, ix, ix⟩, ⟨[], ix, ix⟩, hrun1, hrun2,
    rfl, rfl, rfl, rfl, hnd⟩

/-- Witness for C5 at one indexable course and a one-object projection. -/
theorem index_synchronizer_idempotent_witness :
    partition_course_keys_for_indexing (fun _ => true) [c5Course] =
      .ok (["fakeX"], []) ∧
    (∃ r1 r2 : CycleResult,
      index_synchronizer_cycle (fun _ => true) [c5Course]
        (fun k => [⟨"course-cu-catalog-uuids-0", k, "enterprise_catalog_uuids",
          ["a"]⟩]) [] = .ok r1 ∧
      index_synchronizer_cycle (fun _ => true) [c5Course]
        (fun k => [⟨"course-cu-catalog-uuids-0", k, "enterprise_catalog_uuids",
          ["a"]⟩]) r1.cacheAfter = .ok r2 ∧
      r1.payload = (["fakeX"] : List String).flatMap
        (fun k => [⟨"course-cu-catalog-uuids-0", k, "enterprise_catalog_uuids",
          ["a"]⟩]) ∧
      r2.payload = [] ∧
      r1.cacheChecks = ["fakeX"] ∧
      r2.cacheChecks = ["fakeX"] ∧
      (["fakeX"] : List String).Nodup) :=
  ⟨rfl,
    index_synchronizer_idempotent (fun _ => true) [c5Course]
      (fun k => [⟨"course-cu-catalog-uuids-0", k, "enterprise_catalog_uuids",
        ["a"]⟩]) ["fakeX"] [] rfl⟩
